import Mathlib

/-!
# goblog-api (`user.go`): a verification development

The file embeds the HTTP service of `user.go` and proves properties of it.

## How the program is modelled

* A Go `string` is a `String`, a sequence of Unicode characters (valid UTF-8);
  the library models work on its `List Char`.
* Go's `int` is `GoInt`, the integers of the 64-bit range.
* The global handle `db` is a value of type `sql.DB`: the rows of table `user`
  in the order an unordered `SELECT` returns them, and the operations of the
  driver that fail at present. The columns hold every `int` and every string
  unchanged, and no `NULL`. Every handler takes the handle and returns it,
  together with the statements it sent and the lines it printed.
* `log.Fatal` ends the process: a handler that reaches it sends no response.
* A response is the status, the header entries the handler set and the body
  (the server adds entries of its own, which are left out).
* The packages the handlers call (`strconv`, `strings`, `encoding/json`,
  `net/http`, `database/sql`, `godotenv`, `os`) are modelled after their
  documented behaviour, to the extent `user.go` uses them: `Atoi` and
  `TrimPrefix` on text, `Marshal` and `Unmarshal` on JSON text (scanner with
  its nesting limit, parser and the decoding into `User`), and `ServeMux` with
  its pattern lookup, the canonical form of request paths and its redirects.

The definitions come first, then the supporting lemmas, then one theorem for
each claim `C1` to `C10`.
-/

namespace Goblog

/-! ## Package `strconv` -/

namespace strconv

/-- Smallest value of Go's `int` (64-bit platform). -/
def minInt : Int := -9223372036854775808

/-- Largest value of Go's `int` (64-bit platform). -/
def maxInt : Int := 9223372036854775807

/-- Largest value of Go's `uint64`. -/
def maxUint64 : Nat := 18446744073709551615

/-- The two errors of `strconv`: `ErrSyntax` and `ErrRange`. -/
inductive NumError where
  | ErrSyntax
  | ErrRange
  deriving DecidableEq, Repr

end strconv

/-- Go's `int`: the integers a variable of that type can hold. -/
abbrev GoInt := { n : Int // strconv.minInt ≤ n ∧ n ≤ strconv.maxInt }

namespace strconv

/-- Value of a decimal digit, `none` for any other character. -/
def digitVal (c : Char) : Option Nat :=
  if 48 ≤ c.toNat ∧ c.toNat ≤ 57 then some (c.toNat - 48) else none

/-- The loop of `ParseUint` in base 10: the first character that is not a
digit is a syntax error, the first step past `maxUint64` a range error. -/
def parseUintLoop : List Char → Nat → Except NumError Nat
  | [], n => .ok n
  | c :: cs, n =>
    match digitVal c with
    | none => .error .ErrSyntax
    | some d =>
      if maxUint64 < n * 10 + d then .error .ErrRange
      else parseUintLoop cs (n * 10 + d)

/-- `strconv.ParseUint(s, 10, 64)`. -/
def ParseUint (s : List Char) : Except NumError Nat :=
  match s with
  | [] => .error .ErrSyntax
  | _ :: _ => parseUintLoop s 0

/-- `strconv.ParseInt(s, 10, 0)`: an optional sign, then `ParseUint`, then
the check against the range of `int`. A text that is empty or holds a
character that is no digit is a syntax error; a number that an `int` cannot
hold is a range error. -/
def ParseInt (s : List Char) : Except NumError GoInt :=
  match s with
  | [] => .error .ErrSyntax
  | c :: rest =>
    let digits := if c = '+' ∨ c = '-' then rest else s
    match ParseUint digits with
    | .error e => .error e
    | .ok un =>
      let v : Int := if c = '-' then -(un : Int) else (un : Int)
      if h : minInt ≤ v ∧ v ≤ maxInt then .ok ⟨v, h⟩ else .error .ErrRange

/-- `strconv.Atoi`, which is `ParseInt(s, 10, 0)` converted to `int` (its
fast path for short strings computes the same result). -/
def Atoi (s : String) : Except NumError GoInt :=
  ParseInt s.data

/-- The character of a decimal digit. -/
def digitChar (d : Nat) : Char := Char.ofNat (48 + d)

/-- The digit loop of `formatBits` in base 10, least significant digit
first, written in front of `acc`. -/
def formatBits : Nat → Nat → List Char → List Char
  | 0, _, acc => acc
  | fuel + 1, n, acc =>
    if n / 10 = 0 then digitChar (n % 10) :: acc
    else formatBits fuel (n / 10) (digitChar (n % 10) :: acc)

/-- `strconv.FormatUint(n, 10)`. -/
def FormatUint (n : Nat) : List Char :=
  formatBits (n + 1) n []

/-- `strconv.FormatInt(i, 10)`. -/
def FormatInt (i : Int) : List Char :=
  if i < 0 then '-' :: FormatUint i.natAbs else FormatUint i.toNat

/-- `strconv.Itoa`. -/
def Itoa (i : Int) : String :=
  String.mk (FormatInt i)

end strconv

/-! ## Package `strings` -/

namespace strings

/-- `strings.TrimPrefix(s, pre)`: `s` without the leading `pre`, or `s`
itself when it does not start with `pre`. -/
def TrimPrefix (s pre : String) : String :=
  if pre.data.isPrefixOf s.data then String.mk (s.data.drop pre.data.length) else s

end strings

/-! ## Package `encoding/json` -/

namespace json

/-- A JSON value as the decoder sees it: a number keeps its literal text,
a string holds its decoded characters. -/
inductive Value where
  | null
  | bool (b : Bool)
  | number (lit : List Char)
  | string (s : String)
  | array (items : List Value)
  | object (members : List (String × Value))

/-- The errors of `json.Unmarshal`: the text is not JSON, or a JSON value
does not fit the Go value it is decoded into. -/
inductive UnmarshalError where
  | SyntaxError
  | UnmarshalTypeError
  deriving DecidableEq, Repr

/-! ### Encoding -/

/-- Lower-case hexadecimal digit. -/
def hexChar (n : Nat) : Char :=
  if n < 10 then Char.ofNat (48 + n) else Char.ofNat (87 + n)

/-- How `Marshal` writes one character of a string: the quote and the
backslash are escaped with a backslash, newline, carriage return and tab as
`\n`, `\r`, `\t`, the other control characters and `<`, `>`, `&` as `\u00XX`,
U+2028 and U+2029 as six-character `u` escapes,
everything else as itself. (Go
from 1.22 on writes `\b` and `\f` for U+0008 and U+000C; both forms decode to
the same character.) -/
def escapeChar (c : Char) : List Char :=
  if c = '"' then ['\\', '"']
  else if c = '\\' then ['\\', '\\']
  else if c = '\n' then ['\\', 'n']
  else if c = '\r' then ['\\', 'r']
  else if c = '\t' then ['\\', 't']
  else if c.toNat < 32 ∨ c = '<' ∨ c = '>' ∨ c = '&' then
    ['\\', 'u', '0', '0', hexChar (c.toNat / 16), hexChar (c.toNat % 16)]
  else if c.toNat = 8232 then ['\\', 'u', '2', '0', '2', '8']
  else if c.toNat = 8233 then ['\\', 'u', '2', '0', '2', '9']
  else [c]

/-- The characters of a string between its quotes, as `Marshal` writes them. -/
def escape : List Char → List Char
  | [] => []
  | c :: cs => escapeChar c ++ escape cs

/-- A Go string as a JSON string. -/
def quote (s : String) : List Char :=
  '"' :: (escape s.data ++ ['"'])

/-! ### Scanning and parsing -/

/-- JSON white space. -/
def isSpace (c : Char) : Bool :=
  c = ' ' || c = '\t' || c = '\r' || c = '\n'

/-- Drop leading white space. -/
def skipSpace : List Char → List Char
  | [] => []
  | c :: cs => if isSpace c then skipSpace cs else c :: cs

/-- Value of a hexadecimal digit of either case. -/
def hexVal (c : Char) : Option Nat :=
  if 48 ≤ c.toNat ∧ c.toNat ≤ 57 then some (c.toNat - 48)
  else if 97 ≤ c.toNat ∧ c.toNat ≤ 102 then some (c.toNat - 87)
  else if 65 ≤ c.toNat ∧ c.toNat ≤ 70 then some (c.toNat - 55)
  else none

/-- `getu4`: the number written by four hexadecimal digits. -/
def getu4 (a b c d : Char) : Option Nat :=
  match hexVal a, hexVal b, hexVal c, hexVal d with
  | some x, some y, some z, some w => some (((x * 16 + y) * 16 + z) * 16 + w)
  | _, _, _, _ => none

/-- The low half of a surrogate pair at the head of the text, when the text
starts with a `\uXXXX` escape in the range DC00 to DFFF. -/
def lowSurrogate : List Char → Option (Nat × List Char)
  | '\\' :: 'u' :: a :: b :: c :: d :: rest =>
    match getu4 a b c d with
    | some n => if 56320 ≤ n ∧ n ≤ 57343 then some (n, rest) else none
    | none => none
  | _ => none

/-- The character of a `\uXXXX` escape with value `n`, given the text after
it: a high surrogate followed by a low one is the character of the pair (and
the text continues after the second escape), a surrogate on its own is U+FFFD. -/
def unicodeEscape (n : Nat) (rest : List Char) : Char × Nat :=
  if 55296 ≤ n ∧ n ≤ 57343 then
    if n ≤ 56319 then
      match lowSurrogate rest with
      | some (m, _) => (Char.ofNat (65536 + (n - 55296) * 1024 + (m - 56320)), 6)
      | none => (Char.ofNat 65533, 0)
    else (Char.ofNat 65533, 0)
  else (Char.ofNat n, 0)

/-- Fuel-indexed string scanner: the text after an opening quote gives the
decoded characters up to the closing quote, and the text after it. A raw
control character, an unknown escape or a missing closing quote is an error. -/
def unquoteAux : Nat → List Char → Option (List Char × List Char)
  | 0, _ => none
  | _ + 1, [] => none
  | fuel + 1, c :: rest =>
    if c = '"' then some ([], rest)
    else if c = '\\' then
      match rest with
      | [] => none
      | e :: r =>
        if e = 'u' then
          match r with
          | a :: b :: c4 :: d :: r4 =>
            match getu4 a b c4 d with
            | none => none
            | some n =>
              let (ch, skip) := unicodeEscape n r4
              (unquoteAux fuel (r4.drop skip)).map (fun p => (ch :: p.1, p.2))
          | _ => none
        else
          let decoded : Option Char :=
            if e = '"' then some '"'
            else if e = '\\' then some '\\'
            else if e = '/' then some '/'
            else if e = 'b' then some (Char.ofNat 8)
            else if e = 'f' then some (Char.ofNat 12)
            else if e = 'n' then some '\n'
            else if e = 'r' then some '\r'
            else if e = 't' then some '\t'
            else none
          match decoded with
          | none => none
          | some ch => (unquoteAux fuel r).map (fun p => (ch :: p.1, p.2))
    else if c.toNat < 32 then none
    else (unquoteAux fuel rest).map (fun p => (c :: p.1, p.2))

/-- The string scanner: every step consumes a character, so the length of
the text is fuel enough. -/
def unquote (cs : List Char) : Option (List Char × List Char) :=
  unquoteAux (cs.length + 1) cs

/-- Decimal digit. -/
def isDigit (c : Char) : Bool :=
  decide (48 ≤ c.toNat ∧ c.toNat ≤ 57)

/-- A character that can occur in a number literal. -/
def isNumberChar (c : Char) : Bool :=
  isDigit c || c = '-' || c = '+' || c = '.' || c = 'e' || c = 'E'

/-- Exponent part of a number: nothing, or `e`/`E`, an optional sign and at
least one digit. -/
def validExponent : List Char → Bool
  | [] => true
  | e :: rest =>
    (e = 'e' || e = 'E') &&
      (match rest with
        | [] => false
        | s :: ds =>
          if s = '+' ∨ s = '-' then !ds.isEmpty && ds.all isDigit
          else isDigit s && ds.all isDigit)

/-- Fraction part of a number (`.` and at least one digit), then the exponent. -/
def validFraction : List Char → Bool
  | '.' :: d :: rest => isDigit d && validExponent (rest.dropWhile isDigit)
  | rest => validExponent rest

/-- A number without its sign: `0` or a digit from 1 to 9 followed by
digits, then an optional fraction and an optional exponent. -/
def validUnsigned : List Char → Bool
  | [] => false
  | d :: rest =>
    if d = '0' then validFraction rest
    else isDigit d && validFraction (rest.dropWhile isDigit)

/-- The JSON number grammar: an optional minus, then the unsigned number. -/
def validNumber (lit : List Char) : Bool :=
  match lit with
  | [] => false
  | c :: rest => if c = '-' then validUnsigned rest else validUnsigned lit

/-- The deepest nesting of arrays and objects the scanner accepts
(`maxNestingDepth`); a text nested deeper is a syntax error ("exceeded max
depth"). -/
def maxNestingDepth : Nat := 10000

mutual
/-- JSON text to value. `parseValue` reads one value after optional white
space, `parseElements` the elements of an array up to its `]`,
`parseMembers` the members of an object up to its closing brace. `depth` is
the number of arrays and objects that are open; opening one more at depth
`maxNestingDepth` is an error. The fuel bounds the recursion; each use of it
consumes at least one character. -/
def parseValue : Nat → Nat → List Char → Option (Value × List Char)
  | 0, _, _ => none
  | fuel + 1, depth, cs =>
    match skipSpace cs with
    | [] => none
    | c :: rest =>
      if c = '{' then
        if maxNestingDepth ≤ depth then none
        else
          match skipSpace rest with
          | '}' :: r => some (.object [], r)
          | _ => (parseMembers fuel (depth + 1) rest).map (fun p => (.object p.1, p.2))
      else if c = '[' then
        if maxNestingDepth ≤ depth then none
        else
          match skipSpace rest with
          | ']' :: r => some (.array [], r)
          | _ => (parseElements fuel (depth + 1) rest).map (fun p => (.array p.1, p.2))
      else if c = '"' then
        (unquote rest).map (fun p => (.string (String.mk p.1), p.2))
      else if c = 't' then
        match rest with
        | 'r' :: 'u' :: 'e' :: r => some (.bool true, r)
        | _ => none
      else if c = 'f' then
        match rest with
        | 'a' :: 'l' :: 's' :: 'e' :: r => some (.bool false, r)
        | _ => none
      else if c = 'n' then
        match rest with
        | 'u' :: 'l' :: 'l' :: r => some (.null, r)
        | _ => none
      else
        let lit := (c :: rest).takeWhile isNumberChar
        if validNumber lit then some (.number lit, (c :: rest).dropWhile isNumberChar)
        else none
def parseElements : Nat → Nat → List Char → Option (List Value × List Char)
  | 0, _, _ => none
  | fuel + 1, depth, cs =>
    match parseValue fuel depth cs with
    | none => none
    | some (v, rest) =>
      match skipSpace rest with
      | ',' :: r => (parseElements fuel depth r).map (fun p => (v :: p.1, p.2))
      | ']' :: r => some ([v], r)
      | _ => none
def parseMembers : Nat → Nat → List Char → Option (List (String × Value) × List Char)
  | 0, _, _ => none
  | fuel + 1, depth, cs =>
    match skipSpace cs with
    | '"' :: rest =>
      match unquote rest with
      | none => none
      | some (key, afterKey) =>
        match skipSpace afterKey with
        | ':' :: r =>
          match parseValue fuel depth r with
          | none => none
          | some (v, afterValue) =>
            match skipSpace afterValue with
            | ',' :: r2 =>
              (parseMembers fuel depth r2).map (fun p => ((String.mk key, v) :: p.1, p.2))
            | '}' :: r2 => some ([(String.mk key, v)], r2)
            | _ => none
        | _ => none
    | _ => none
end

/-- The syntax pass of `Unmarshal`: one JSON value, white space around it,
nothing else, and no nesting deeper than `maxNestingDepth`. -/
def parse (data : String) : Option Value :=
  match parseValue (data.data.length + 1) 0 data.data with
  | some (v, rest) => if skipSpace rest = [] then some v else none
  | none => none

end json

/-! ## The data model of `user.go` -/

/-- The entity of the service: `type User struct { Id int; Username string }`
with the JSON names `id` and `username`. -/
structure User where
  Id : GoInt
  Username : String
  deriving DecidableEq

/-- The zero value of `int`. -/
def GoInt.zero : GoInt := ⟨0, by decide⟩

/-- The value of `var user User`. -/
def User.zero : User := ⟨GoInt.zero, ""⟩

namespace json

/-! ### Decoding into `User` -/

/-- Case folding of one rune of an object key, as far as it can reach an
ASCII letter: lower case to upper case, the long s (U+017F) to `S`, the Kelvin
sign (U+212A) to `K`. -/
def foldRune (c : Char) : Char :=
  if 97 ≤ c.toNat ∧ c.toNat ≤ 122 then Char.ofNat (c.toNat - 32)
  else if c.toNat = 383 then 'S'
  else if c.toNat = 8490 then 'K'
  else c

/-- `foldName`: two names denote the same struct field when their folded
forms are equal (an exact match is a case of it). -/
def foldName (s : String) : List Char :=
  s.data.map foldRune

/-- A JSON value decoded into a Go `int` that holds `cur`. As the package
documents: unmarshaling `null` into a type that is no interface, map, pointer
or slice has no effect and produces no error; a number literal is passed to
`ParseInt`, and one that is no integer or overflows the type is an
`UnmarshalTypeError`; so is every other kind of value. -/
def decodeInt (v : Value) (cur : GoInt) : Except UnmarshalError GoInt :=
  match v with
  | .null => .ok cur
  | .number lit =>
    match strconv.ParseInt lit with
    | .ok n => .ok n
    | .error _ => .error .UnmarshalTypeError
  | _ => .error .UnmarshalTypeError

/-- A JSON value decoded into a Go `string` that holds `cur`: `null` has no
effect and produces no error, a string is stored, every other kind of value is
an `UnmarshalTypeError`. -/
def decodeString (v : Value) (cur : String) : Except UnmarshalError String :=
  match v with
  | .null => .ok cur
  | .string s => .ok s
  | _ => .error .UnmarshalTypeError

/-- The members of an object decoded into a `User`, in the order of the
text: a key that folds like `id` or `username` sets that field (a later
member overrides an earlier one), other keys are skipped. `Unmarshal` returns
the earliest error of a member; the fields it has set by then are of no
consequence to `createUser`, which ends the process on any error. -/
def decodeMembers : List (String × Value) → User → Except UnmarshalError User
  | [], u => .ok u
  | (key, v) :: rest, u =>
    if foldName key = foldName "id" then
      match decodeInt v u.Id with
      | .ok i => decodeMembers rest { u with Id := i }
      | .error e => .error e
    else if foldName key = foldName "username" then
      match decodeString v u.Username with
      | .ok name => decodeMembers rest { u with Username := name }
      | .error e => .error e
    else decodeMembers rest u

/-- A JSON value decoded into a `User` that holds `u`: `null` leaves it
alone, an object sets its fields, anything else does not fit. -/
def decodeUser (v : Value) (u : User) : Except UnmarshalError User :=
  match v with
  | .null => .ok u
  | .object members => decodeMembers members u
  | _ => .error .UnmarshalTypeError

/-- `json.Unmarshal(data, &user)` for `user` of type `User`. -/
def Unmarshal (data : String) (u : User) : Except UnmarshalError User :=
  match parse data with
  | none => .error .SyntaxError
  | some v => decodeUser v u

/-- The elements of a JSON array decoded into a `[]User`: each element is
decoded into a fresh `User`. -/
def decodeUsers : List Value → Except UnmarshalError (List User)
  | [] => .ok []
  | v :: vs =>
    match decodeUser v User.zero with
    | .error e => .error e
    | .ok u =>
      match decodeUsers vs with
      | .error e => .error e
      | .ok us => .ok (u :: us)

/-- `json.Unmarshal(data, &users)` for `users` of type `[]User`; `none` is
the nil slice. -/
def UnmarshalUsers (data : String) : Except UnmarshalError (Option (List User)) :=
  match parse data with
  | none => .error .SyntaxError
  | some .null => .ok none
  | some (.array items) =>
    match decodeUsers items with
    | .ok us => .ok (some us)
    | .error e => .error e
  | some _ => .error .UnmarshalTypeError

/-- The value is the literal `null`. -/
def Value.isNull : Value → Bool
  | .null => true
  | _ => false

/-- The value is a string. -/
def Value.isString : Value → Bool
  | .string _ => true
  | _ => false

/-- The value is a number literal that `ParseInt` accepts as an `int`. -/
def Value.isInt : Value → Bool
  | .number lit =>
    match strconv.ParseInt lit with
    | .ok _ => true
    | .error _ => false
  | _ => false

/-! ### Encoding `User` and `[]User` -/

/-- The JSON object with the two members `id` and `username`, in the compact
form `Marshal` writes. -/
def userObject (id : Int) (username : String) : List Char :=
  '{' :: (quote "id" ++ (':' :: (strconv.FormatInt id ++
    (',' :: (quote "username" ++ (':' :: (quote username ++ ['}'])))))))

/-- `json.Marshal(user)`. It has no error case for this type. -/
def Marshal (u : User) : String :=
  String.mk (userObject u.Id.val u.Username)

/-- The elements of an array, separated by commas. -/
def marshalElements : List User → List Char
  | [] => []
  | [u] => userObject u.Id.val u.Username
  | u :: us => userObject u.Id.val u.Username ++ (',' :: marshalElements us)

/-- `json.Marshal(users)` for a `[]User`: the nil slice (`none`) is written
`null`, any other slice as an array. -/
def MarshalUsers : Option (List User) → String
  | none => "null"
  | some us => String.mk ('[' :: (marshalElements us ++ [']']))

end json

/-! ## Package `database/sql` over table `user` -/

namespace sql

/-- The operations of the driver that can fail for reasons outside the
table's contents (a lost connection, a missing table, a column that does not
convert). -/
inductive Op where
  | Query
  | Scan
  | QueryRow
  | Prepare
  | Exec
  deriving DecidableEq, Repr

/-- An error of `database/sql`: `ErrNoRows`, a primary key that is already
there (MySQL error 1062), or a failure of the driver. -/
inductive Error where
  | ErrNoRows
  | duplicateEntry
  | driver (op : Op)
  deriving DecidableEq, Repr

/-- A statement sent through the handle, with its arguments. -/
inductive Call where
  | Query (query : String)
  | QueryRow (query : String) (id : GoInt)
  | Prepare (query : String)
  | Exec (id : GoInt) (username : String)
  | Close
  deriving DecidableEq

/-- The handle `db`: the rows of table `user` (columns `id`, `username`) in
the order an unordered `SELECT` returns them, and the driver operations that
fail at present. -/
structure DB where
  rows : List User
  failing : List Op
  deriving DecidableEq

/-- A handle with no driver failure onto the table with the given rows. -/
def DB.working (rows : List User) : DB :=
  ⟨rows, []⟩

/-- `db.Query("SELECT * FROM user")`: all rows. -/
def DB.Query (db : DB) : Except Error (List User) :=
  if Op.Query ∈ db.failing then .error (.driver .Query) else .ok db.rows

/-- `rows.Scan(&user.Id, &user.Username)` on the current row. -/
def DB.Scan (db : DB) (row : User) : Except Error User :=
  if Op.Scan ∈ db.failing then .error (.driver .Scan) else .ok row

/-- `db.QueryRow("SELECT * FROM user WHERE id = ?", id)` followed by
`row.Scan`: the first row with that id, `ErrNoRows` when there is none. -/
def DB.QueryRow (db : DB) (id : GoInt) : Except Error User :=
  if Op.QueryRow ∈ db.failing then .error (.driver .QueryRow)
  else
    match db.rows.find? (fun u => decide (u.Id = id)) with
    | some u => .ok u
    | none => .error .ErrNoRows

/-- `db.Prepare(...)`. -/
def DB.Prepare (db : DB) : Except Error Unit :=
  if Op.Prepare ∈ db.failing then .error (.driver .Prepare) else .ok ()

/-- `stmt.Exec(id, username)` for the prepared `INSERT`: the row is added
unless a row with that primary key exists. -/
def DB.Exec (db : DB) (id : GoInt) (username : String) : Except Error DB :=
  if Op.Exec ∈ db.failing then .error (.driver .Exec)
  else if db.rows.any (fun u => decide (u.Id = id)) then .error .duplicateEntry
  else .ok { db with rows := db.rows ++ [⟨id, username⟩] }

end sql

/-! ## Package `net/http` -/

namespace http

/-- The method of a GET request. -/
def MethodGet : String := "GET"

/-- The method of a POST request. -/
def MethodPost : String := "POST"

/-- The status 200. -/
def StatusOK : Nat := 200

/-- The status 400. -/
def StatusBadRequest : Nat := 400

/-- The status 404. -/
def StatusNotFound : Nat := 404

/-- The status 405. -/
def StatusMethodNotAllowed : Nat := 405

/-- The status 500. -/
def StatusInternalServerError : Nat := 500

/-- The parts of `*http.Request` the handlers read: `r.Method`,
`r.URL.Path`, and what `ioutil.ReadAll(r.Body)` returns (the bytes, or the
error of the read). -/
structure Request where
  Method : String
  Path : String
  Body : Except String String

/-- The state of an `http.ResponseWriter`: the header map, the status once
it is written, the body written so far. -/
structure ResponseWriter where
  header : List (String × String)
  status : Option Nat
  body : String
  deriving DecidableEq

/-- A fresh writer. -/
def ResponseWriter.new : ResponseWriter := ⟨[], none, ""⟩

/-- `w.Header().Set(key, value)`; it changes the response only before the
status is written. -/
def ResponseWriter.Set (w : ResponseWriter) (key value : String) : ResponseWriter :=
  if w.status.isSome then w
  else { w with header := (key, value) :: w.header.filter (fun kv => kv.1 ≠ key) }

/-- `w.WriteHeader(code)`; only the first call counts. -/
def ResponseWriter.WriteHeader (w : ResponseWriter) (code : Nat) : ResponseWriter :=
  if w.status.isSome then w else { w with status := some code }

/-- `w.Write(data)` (also `fmt.Fprintf(w, data)`): writes status 200 first
when no status is written yet. -/
def ResponseWriter.Write (w : ResponseWriter) (data : String) : ResponseWriter :=
  let w1 := w.WriteHeader StatusOK
  { w1 with body := w1.body ++ data }

/-- The response the server sends when the handler returns: the status, the
header entries the handler set, the body. -/
structure Response where
  status : Nat
  header : List (String × String)
  body : String
  deriving DecidableEq

/-- The response of a writer: status 200 when the handler wrote none. -/
def ResponseWriter.response (w : ResponseWriter) : Response :=
  ⟨w.status.getD StatusOK, w.header, w.body⟩

end http

/-- The error a handler passes to `log.Fatal`: one of `json.Unmarshal` or
one of `database/sql`. -/
inductive FatalError where
  | json (err : json.UnmarshalError)
  | sql (err : sql.Error)
  deriving DecidableEq

/-- How the handling of a request ends: the handler returns and the
response is sent, or `log.Fatal(err)` ends the process, or the mux answers for
itself with a redirect (301 Moved Permanently) to another path and calls no
registered handler. -/
inductive Reply where
  | sent (resp : http.Response)
  | fatal (err : FatalError)
  | redirect (path : String)
  deriving DecidableEq

/-- What a handler leaves behind: its reply, the handle `db`, the statements
it sent through the handle in order, and the lines it printed. -/
structure Outcome where
  reply : Reply
  db : sql.DB
  calls : List sql.Call
  stdout : List String
  deriving DecidableEq

/-! ## The handlers of `user.go` -/

/-- The handler returns: its response is sent. -/
def respond (w : http.ResponseWriter) (db : sql.DB) (calls : List sql.Call)
    (stdout : List String) : Outcome :=
  ⟨.sent w.response, db, calls, stdout⟩

/-- The loop `for rows.Next()` of `getUsersHandler`: each row is scanned and
appended to `users`; a failing scan is the error of the loop. -/
def scanRows (db : sql.DB) : List User → List User → Except sql.Error (List User)
  | [], users => .ok users
  | row :: rest, users =>
    match db.Scan row with
    | .error e => .error e
    | .ok user => scanRows db rest (users ++ [user])

/-- `getUsersHandler`: the list handler. -/
def getUsersHandler (db : sql.DB) (r : http.Request) : Outcome :=
  let w := http.ResponseWriter.new
  if r.Method ≠ http.MethodGet then
    respond (w.WriteHeader http.StatusMethodNotAllowed) db [] []
  else
    let calls := [sql.Call.Query "SELECT * FROM user"]
    match db.Query with
    | .error err => ⟨.fatal (.sql err), db, calls, []⟩
    | .ok rows =>
      match scanRows db rows [] with
      | .error err => ⟨.fatal (.sql err), db, calls, []⟩
      | .ok users =>
        let jsonData := json.MarshalUsers (some users)
        let w1 := w.Set "Content-Type" "application/json"
        let w2 := w1.WriteHeader http.StatusOK
        let w3 := w2.Write jsonData
        respond w3 db calls [jsonData]

/-- `getUserHandler`: the get-by-id handler. -/
def getUserHandler (db : sql.DB) (r : http.Request) : Outcome :=
  let w := http.ResponseWriter.new
  if r.Method ≠ http.MethodGet then
    respond (w.WriteHeader http.StatusMethodNotAllowed) db [] []
  else
    let idStr := strings.TrimPrefix r.Path "/users/"
    match strconv.Atoi idStr with
    | .error _ =>
      respond ((w.WriteHeader http.StatusBadRequest).Write "Invalid user ID") db [] []
    | .ok id =>
      let calls := [sql.Call.QueryRow "SELECT * FROM user WHERE id = ?" id]
      match db.QueryRow id with
      | .error err =>
        if err = sql.Error.ErrNoRows then
          respond ((w.WriteHeader http.StatusNotFound).Write "User not found") db calls []
        else ⟨.fatal (.sql err), db, calls, []⟩
      | .ok user =>
        let jsonData := json.Marshal user
        let w1 := w.Set "Content-Type" "application/json"
        let w2 := w1.WriteHeader http.StatusOK
        let w3 := w2.Write jsonData
        respond w3 db calls []

/-- `createUser`: the create handler. -/
def createUser (db : sql.DB) (r : http.Request) : Outcome :=
  let w := http.ResponseWriter.new
  if r.Method ≠ http.MethodPost then
    respond (w.WriteHeader http.StatusMethodNotAllowed) db [] []
  else
    match r.Body with
    | .error _ =>
      respond ((w.WriteHeader http.StatusInternalServerError).Write
        "Error reading request body") db [] []
    | .ok body =>
      match json.Unmarshal body User.zero with
      | .error err => ⟨.fatal (.json err), db, [], []⟩
      | .ok user =>
        let prepare := sql.Call.Prepare "INSERT INTO user (id, username) VALUES (?, ?)"
        match db.Prepare with
        | .error _ =>
          respond ((w.WriteHeader http.StatusInternalServerError).Write
            "Error preparing statement") db [prepare] []
        | .ok _ =>
          let calls := [prepare, sql.Call.Exec user.Id user.Username, sql.Call.Close]
          match db.Exec user.Id user.Username with
          | .error _ =>
            respond ((w.WriteHeader http.StatusInternalServerError).Write
              "Error executing statement") db calls []
          | .ok db1 =>
            respond ((w.WriteHeader http.StatusOK).Write
              "User created successfully") db1 calls []

/-- `healthHandler`: the liveness handler. -/
def healthHandler (db : sql.DB) (_r : http.Request) : Outcome :=
  respond (http.ResponseWriter.new.Write "Health check passed") db [] []

/-! ## Routing: `http.ServeMux` and the registrations of `apiSetup` -/

/-- The four handler functions as values that can be registered. -/
inductive Handler where
  | getUsersHandler
  | getUserHandler
  | createUser
  | healthHandler
  deriving DecidableEq, Repr

/-- Call a registered handler. -/
def Handler.serve : Handler → sql.DB → http.Request → Outcome
  | .getUsersHandler => Goblog.getUsersHandler
  | .getUserHandler => Goblog.getUserHandler
  | .createUser => Goblog.createUser
  | .healthHandler => Goblog.healthHandler

namespace http

/-- The state of a `ServeMux`: the map `m` from pattern to handler, and the
list `es` of the entries whose pattern ends in a slash, longest first. -/
structure ServeMux where
  m : List (String × Handler)
  es : List (String × Handler)
  deriving DecidableEq

/-- `http.NewServeMux()`. -/
def NewServeMux : ServeMux := ⟨[], []⟩

/-- `appendSorted`: the entry goes in front of the first entry with a
shorter pattern. -/
def appendSorted : List (String × Handler) → String × Handler → List (String × Handler)
  | [], e => [e]
  | x :: xs, e =>
    if x.1.length < e.1.length then e :: x :: xs else x :: appendSorted xs e

/-- `mux.HandleFunc(pattern, handler)`; `none` stands for the panic on an
empty pattern or on a pattern that is registered already. -/
def ServeMux.HandleFunc (mux : ServeMux) (pattern : String) (h : Handler) :
    Option ServeMux :=
  if pattern = "" then none
  else if mux.m.any (fun e => decide (e.1 = pattern)) then none
  else
    some
      { m := mux.m ++ [(pattern, h)]
        es := if pattern.data.getLast? = some '/' then appendSorted mux.es (pattern, h)
              else mux.es }

/-- The pattern lookup of `ServeMux` for a path (`mux.handler`): the pattern
equal to the path if there is one, else the first entry of `es` (the longest
pattern ending in a slash) that is a beginning of the path: a pattern without
a trailing slash names one path, a pattern with one names a subtree, and
longer patterns take precedence over shorter ones. `mux.Handler` decides
which path is looked up. -/
def ServeMux.handler (mux : ServeMux) (path : String) : Option Handler :=
  match mux.m.find? (fun e => decide (e.1 = path)) with
  | some e => some e.2
  | none =>
    match mux.es.find? (fun e => e.1.data.isPrefixOf path.data) with
    | some e => some e.2
    | none => none

/-- A list of registrations made in order on a mux. -/
def ServeMux.register : ServeMux → List (String × Handler) → Option ServeMux
  | mux, [] => some mux
  | mux, (pattern, h) :: rest =>
    match mux.HandleFunc pattern h with
    | none => none
    | some mux1 => ServeMux.register mux1 rest

/-- The elements of a path: the pieces between its slashes, as
`strings.Split(p, "/")` gives them. -/
def splitSlash : List Char → List (List Char)
  | [] => [[]]
  | c :: cs =>
    match splitSlash cs with
    | [] => [[]]
    | e :: es => if c = '/' then [] :: e :: es else (c :: e) :: es

/-- The loop of `path.Clean` on the elements of a rooted path: an empty
element and `.` are dropped, `..` drops the element kept last (and is dropped
itself at the root), any other element is kept. `kept` holds the elements kept
so far, the last one first. -/
def cleanElements : List (List Char) → List (List Char) → List (List Char)
  | [], kept => kept.reverse
  | e :: es, kept =>
    if e = [] ∨ e = ['.'] then cleanElements es kept
    else if e = ['.', '.'] then cleanElements es kept.tail
    else cleanElements es (e :: kept)

/-- `path.Clean(p)` for a rooted path `p`: the kept elements, each after a
slash; the root alone when none is kept. -/
def pathClean (p : List Char) : List Char :=
  match cleanElements (splitSlash p) [] with
  | [] => ['/']
  | e :: es => (e :: es).foldr (fun x acc => '/' :: (x ++ acc)) []

/-- `cleanPath`: the canonical form of a request path. The empty path is
`/`, a path with no leading slash gets one, the path is cleaned with
`path.Clean`, and the trailing slash `path.Clean` removes is put back. -/
def cleanPath (p : String) : String :=
  if p = "" then "/"
  else
    let rooted := if p.data.head? = some '/' then p.data else '/' :: p.data
    let np := pathClean rooted
    if rooted.getLast? = some '/' ∧ np ≠ ['/'] then String.mk (np ++ ['/']) else String.mk np

/-- What the mux decides for a request: a registered handler, a redirect to
another path, or `NotFoundHandler`. -/
inductive Dispatch where
  | handler (h : Handler)
  | redirect (path : String)
  | notFound
  deriving DecidableEq

/-- `shouldRedirectRLocked`: the path is no registered pattern, but the path
followed by a slash is one. (No pattern of `apiSetup` names a host, so the
host of the request plays no part.) -/
def ServeMux.shouldRedirect (mux : ServeMux) (path : String) : Bool :=
  if mux.m.any (fun e => decide (e.1 = path)) then false
  else if path = "" then false
  else mux.m.any (fun e => decide (e.1 = path ++ "/")) && decide (path.data.getLast? ≠ some '/')

/-- The lookup of `ServeMux` as a decision. -/
def ServeMux.lookup (mux : ServeMux) (path : String) : Dispatch :=
  match mux.handler path with
  | some h => .handler h
  | none => .notFound

/-- `mux.Handler(r)`. The path of a CONNECT request is looked up as it is.
The path of any other request is put in canonical form first: when the
canonical path differs from the path of the request, the mux answers with a
redirect to the canonical path and no registered handler is called. In both
cases a path that is registered only with a slash after it is redirected to
that pattern. -/
def ServeMux.Handler (mux : ServeMux) (r : Request) : Dispatch :=
  if r.Method = "CONNECT" then
    if mux.shouldRedirect r.Path then .redirect (r.Path ++ "/") else mux.lookup r.Path
  else
    let path := cleanPath r.Path
    if mux.shouldRedirect path then .redirect (path ++ "/")
    else if path ≠ r.Path then .redirect path
    else mux.lookup r.Path

/-- `http.NotFound`: the reply of the mux to a path no pattern matches. -/
def NotFound : Response :=
  ⟨StatusNotFound, [("Content-Type", "text/plain; charset=utf-8"),
    ("X-Content-Type-Options", "nosniff")], "404 page not found\n"⟩

end http

/-- The registrations of `apiSetup`, in the order of the source. -/
def routes : List (String × Handler) :=
  [("/users", .getUsersHandler), ("/users/", .getUserHandler),
   ("/users/create", .createUser), ("/health", .healthHandler)]

/-- The mux `apiSetup` builds. -/
def apiMux : Option http.ServeMux :=
  http.NewServeMux.register routes

/-- `mux.ServeHTTP`: one request served through a mux with the handle `db`.
A request for `*` (the only request whose path is `*`) is answered 400 by the
mux; any other request is answered as `mux.Handler` decides. -/
def serveHTTP (mux : http.ServeMux) (db : sql.DB) (r : http.Request) : Outcome :=
  if r.Path = "*" then ⟨.sent ⟨http.StatusBadRequest, [], ""⟩, db, [], []⟩
  else
    match mux.Handler r with
    | .handler h => h.serve db r
    | .redirect path => ⟨.redirect path, db, [], []⟩
    | .notFound => ⟨.sent http.NotFound, db, [], []⟩

/-- Requests served one after the other by one handler, each on the handle
its predecessor left; nothing is served after `log.Fatal`. The replies come
with the handle the last request left. -/
def serveEach (h : sql.DB → http.Request → Outcome) :
    sql.DB → List http.Request → List Reply × sql.DB
  | db, [] => ([], db)
  | db, r :: rs =>
    match h db r with
    | ⟨.fatal err, db1, _, _⟩ => ([.fatal err], db1)
    | ⟨.sent resp, db1, _, _⟩ =>
      let (replies, db2) := serveEach h db1 rs
      (.sent resp :: replies, db2)
    | ⟨.redirect path, db1, _, _⟩ =>
      let (replies, db2) := serveEach h db1 rs
      (.redirect path :: replies, db2)

/-! ## Start-up: `main` and `apiSetup` -/

/-- What the process finds when it starts: the result of reading the file
`.env` (its pairs, or the error `godotenv.Load` returns), the environment,
for each descriptor whether `sql.Open` and `db.Ping` fail, whether closing
an earlier handle fails, and whether the listener on `:8080` fails to start. -/
structure World where
  dotenv : Except String (List (String × String))
  environ : List (String × String)
  sqlOpen : String → Option String
  ping : String → Option String
  close : Option String
  listen : Option String

/-- How start-up ends: `log.Fatal`, a panic of `HandleFunc`, a plain return
of `apiSetup`, or the server serving with the handle opened for `dsn`. -/
inductive Startup where
  | fatal (err : String)
  | panic (err : String)
  | returned
  | serving (dsn : String) (mux : http.ServeMux)
  deriving DecidableEq

/-- The steps start-up goes through, for the record. -/
inductive Step where
  | loadDotenv
  | getenv (key value : String)
  | close
  | sqlOpen (dsn : String)
  | ping (dsn : String)
  | listenAndServe
  deriving DecidableEq

/-- `godotenv.Load()`: the pairs of the file are put into the environment,
except for names that are set there already. -/
def godotenvLoad (environ file : List (String × String)) : List (String × String) :=
  environ ++ file.filter (fun kv => !environ.any (fun e => decide (e.1 = kv.1)))

/-- `os.Getenv(key)`: the value of the variable, the empty string when it
is not set. -/
def Getenv (environ : List (String × String)) (key : String) : String :=
  match environ.find? (fun e => decide (e.1 = key)) with
  | some e => e.2
  | none => ""

/-- `apiSetup`, given the global `dsn` and whether the global `db` holds a
handle already; the result comes with the steps taken. -/
def apiSetup (world : World) (dsn : String) (dbOpen : Bool) : Startup × List Step :=
  let closing : List Step := if dbOpen then [.close] else []
  if dbOpen ∧ world.close.isSome then (.returned, closing)
  else
    match world.sqlOpen dsn with
    | some err => (.fatal err, closing ++ [.sqlOpen dsn])
    | none =>
      match world.ping dsn with
      | some err => (.fatal err, closing ++ [.sqlOpen dsn, .ping dsn])
      | none =>
        let steps := closing ++ [.sqlOpen dsn, .ping dsn, .listenAndServe]
        match apiMux with
        | none => (.panic "http: multiple registrations", closing ++ [.sqlOpen dsn, .ping dsn])
        | some mux =>
          match world.listen with
          | some err => (.fatal err, steps)
          | none => (.serving dsn mux, steps)

/-- `main`: load `.env`, read `DSN` into the global `dsn`, call `apiSetup`. -/
def main (world : World) : Startup × List Step :=
  match world.dotenv with
  | .error _ => (.fatal "Error loading .env file", [.loadDotenv])
  | .ok file =>
    let dsn := Getenv (godotenvLoad world.environ file) "DSN"
    let (result, steps) := apiSetup world dsn false
    (result, [.loadDotenv, .getenv "DSN" dsn] ++ steps)

/-! ## Predicates used to state the properties -/

/-- Text that is an optional sign followed by one or more decimal digits. -/
def integerText (s : String) : Bool :=
  match s.data with
  | [] => false
  | c :: rest =>
    let digits := if c = '+' ∨ c = '-' then rest else c :: rest
    !digits.isEmpty && digits.all (fun d => (strconv.digitVal d).isSome)

/-- The value is an object. -/
def json.Value.isObject : json.Value → Bool
  | .object _ => true
  | _ => false

/-- The route table the registrations of `apiSetup` are to realise: `/users`
is the list handler's, `/users/create` the create handler's, every other path
that begins with `/users/` the get-by-id handler's, `/health` the health
handler's, and no other path has a handler. -/
def expectedRoute (path : String) : Option Handler :=
  if path = "/users" then some Handler.getUsersHandler
  else if path = "/users/create" then some Handler.createUser
  else if "/users/".data.isPrefixOf path.data then some Handler.getUserHandler
  else if path = "/health" then some Handler.healthHandler
  else none

/-- A member of a JSON object that `Unmarshal` cannot store in a `User`: its
key folds like `id` and its value is neither `null` nor an integer literal in
the range of `int`, or its key folds like `username` and its value is neither
`null` nor a string. -/
def json.badMember (kv : String × json.Value) : Bool :=
  if json.foldName kv.1 = json.foldName "id" then !kv.2.isNull && !kv.2.isInt
  else if json.foldName kv.1 = json.foldName "username" then !kv.2.isNull && !kv.2.isString
  else false

/-! # Properties

## `strconv`: parsing what was formatted -/

namespace strconv

theorem digitChar_toNat (d : Nat) (h : d < 10) : (digitChar d).toNat = 48 + d := by
  interval_cases d <;> rfl

theorem digitVal_digitChar (d : Nat) (h : d < 10) : digitVal (digitChar d) = some d := by
  unfold digitVal
  rw [digitChar_toNat d h]
  simp
  omega

theorem parseUintLoop_formatBits (fuel : Nat) :
    ∀ (n : Nat) (tail : List Char), n < fuel → n ≤ maxUint64 →
      parseUintLoop (formatBits fuel n tail) 0 = parseUintLoop tail n := by
  induction fuel with
  | zero => intro n tail h; omega
  | succ fuel ih =>
    intro n tail hlt hmax
    unfold formatBits
    by_cases h0 : n / 10 = 0
    · have hn : n < 10 := by omega
      have hmod : n % 10 = n := Nat.mod_eq_of_lt hn
      simp only [h0, if_true, hmod, parseUintLoop, digitVal_digitChar n hn]
      have : ¬ maxUint64 < n := by omega
      simp [this]
    · simp only [h0, if_false]
      rw [ih (n / 10) _ (by omega) (by omega)]
      have hd : n % 10 < 10 := Nat.mod_lt _ (by decide)
      simp only [parseUintLoop, digitVal_digitChar _ hd]
      have e : n / 10 * 10 + n % 10 = n := by omega
      rw [e]
      have : ¬ maxUint64 < n := by omega
      simp [this]

theorem formatBits_all (P : Char → Prop) (hP : ∀ d, d < 10 → P (digitChar d)) (fuel : Nat) :
    ∀ (n : Nat) (acc : List Char), (∀ c ∈ acc, P c) → ∀ c ∈ formatBits fuel n acc, P c := by
  induction fuel with
  | zero => intro n acc h; exact h
  | succ fuel ih =>
    intro n acc h
    have hd : P (digitChar (n % 10)) := hP _ (Nat.mod_lt _ (by decide))
    have hacc : ∀ c ∈ digitChar (n % 10) :: acc, P c := by
      intro c hc
      rcases List.mem_cons.mp hc with rfl | hc
      · exact hd
      · exact h c hc
    unfold formatBits
    by_cases h0 : n / 10 = 0
    · simpa [h0] using hacc
    · simp only [h0, if_false]
      exact ih _ _ hacc

theorem formatBits_head (fuel : Nat) :
    ∀ (n : Nat) (acc : List Char), n < fuel →
      ∃ d rest, formatBits fuel n acc = digitChar d :: rest ∧ d < 10 ∧ (n ≠ 0 → d ≠ 0) := by
  induction fuel with
  | zero => intro n acc h; omega
  | succ fuel ih =>
    intro n acc hlt
    unfold formatBits
    by_cases h0 : n / 10 = 0
    · refine ⟨n % 10, acc, by simp [h0], Nat.mod_lt _ (by decide), ?_⟩
      omega
    · simp only [h0, if_false]
      obtain ⟨d, rest, he, hd, hz⟩ := ih (n / 10) (digitChar (n % 10) :: acc) (by omega)
      exact ⟨d, rest, he, hd, fun _ => hz h0⟩

theorem ParseUint_FormatUint (n : Nat) (h : n ≤ maxUint64) :
    ParseUint (FormatUint n) = .ok n := by
  obtain ⟨d, rest, he, _, _⟩ := formatBits_head (n + 1) n [] (by omega)
  have hloop := parseUintLoop_formatBits (n + 1) n [] (by omega) h
  unfold FormatUint
  rw [he] at hloop ⊢
  show parseUintLoop (digitChar d :: rest) 0 = _
  rw [hloop]; rfl

/-- Parsing what `FormatInt` writes gives the number back. -/
theorem ParseInt_FormatInt (i : GoInt) : ParseInt (FormatInt i.val) = .ok i := by
  obtain ⟨v, hv⟩ := i
  have hmin : minInt = -9223372036854775808 := rfl
  have hmax : maxInt = 9223372036854775807 := rfl
  have hu : maxUint64 = 18446744073709551615 := rfl
  have key : ∀ w : Int, w = v →
      (if h : minInt ≤ w ∧ w ≤ maxInt then Except.ok ⟨w, h⟩ else .error .ErrRange :
        Except NumError GoInt) = .ok ⟨v, hv⟩ := by
    intro w hw; subst hw; simp [hv]
  by_cases hneg : v < 0
  · have hfmt : FormatInt v = '-' :: FormatUint v.natAbs := by simp [FormatInt, hneg]
    have hpu := ParseUint_FormatUint v.natAbs (by omega)
    simp only [hfmt, ParseInt]
    simp only [or_true, if_true, hpu]
    exact key (-((v.natAbs : Nat) : Int)) (by omega)
  · have hfmt : FormatInt v = FormatUint v.toNat := by simp [FormatInt, hneg]
    obtain ⟨d, rest, he, hd, _⟩ := formatBits_head (v.toNat + 1) v.toNat [] (by omega)
    have hpu := ParseUint_FormatUint v.toNat (by omega)
    have hplus : digitChar d ≠ '+' := by interval_cases d <;> decide
    have hminus : digitChar d ≠ '-' := by interval_cases d <;> decide
    have hfu : FormatUint v.toNat = digitChar d :: rest := he
    simp only [hfmt, ParseInt]
    rw [hfu]
    simp only [hplus, hminus, or_self, if_false]
    rw [← hfu]
    simp only [hpu, hminus, if_false]
    exact key ((v.toNat : Nat) : Int) (by omega)

end strconv

/-! ## `encoding/json`: decoding what was encoded -/

namespace json

theorem hexVal_hexChar (k : Nat) (h : k < 16) : hexVal (hexChar k) = some k := by
  interval_cases k <;> rfl

theorem getu4_hex (n : Nat) (h : n < 256) :
    getu4 '0' '0' (hexChar (n / 16)) (hexChar (n % 16)) = some n := by
  have h1 : hexVal '0' = some 0 := rfl
  have h2 := hexVal_hexChar (n / 16) (by omega)
  have h3 := hexVal_hexChar (n % 16) (by omega)
  simp only [getu4, h1, h2, h3]
  congr 1
  omega

theorem unicodeEscape_plain (n : Nat) (rest : List Char) (h : n < 55296) :
    unicodeEscape n rest = (Char.ofNat n, 0) := by
  unfold unicodeEscape
  have : ¬ (55296 ≤ n ∧ n ≤ 57343) := by omega
  simp [this]

theorem unquoteAux_u00 (fuel : Nat) (c : Char) (rest : List Char) (h : c.toNat < 256) :
    unquoteAux (fuel + 1)
        ('\\' :: 'u' :: '0' :: '0' :: hexChar (c.toNat / 16) :: hexChar (c.toNat % 16) :: rest) =
      (unquoteAux fuel rest).map (fun p => (c :: p.1, p.2)) := by
  simp [unquoteAux, getu4_hex _ h, unicodeEscape_plain _ rest (show c.toNat < 55296 by omega)]

theorem unquoteAux_escapeChar (fuel : Nat) (c : Char) (rest : List Char) :
    unquoteAux (fuel + 1) (escapeChar c ++ rest) =
      (unquoteAux fuel rest).map (fun p => (c :: p.1, p.2)) := by
  unfold escapeChar
  split_ifs with h1 h2 h3 h4 h5 h6 h7 h8
  · subst h1; simp [unquoteAux]
  · subst h2; simp [unquoteAux]
  · subst h3; simp [unquoteAux]
  · subst h4; simp [unquoteAux]
  · subst h5; simp [unquoteAux]
  · have hc : c.toNat < 256 := by
      rcases h6 with h | h | h | h
      · omega
      · subst h; decide
      · subst h; decide
      · subst h; decide
    exact unquoteAux_u00 fuel c rest hc
  · have hc : c = Char.ofNat 8232 := by rw [← h7, Char.ofNat_toNat]
    subst hc; simp [unquoteAux]; rfl
  · have hc : c = Char.ofNat 8233 := by rw [← h8, Char.ofNat_toNat]
    subst hc; simp [unquoteAux]; rfl
  · have h32 : ¬ c.toNat < 32 := fun h => h6 (Or.inl h)
    simp [unquoteAux, h1, h2, h32]

theorem unquoteAux_escape (s : List Char) :
    ∀ (fuel : Nat) (tail : List Char), s.length < fuel →
      unquoteAux fuel (escape s ++ '"' :: tail) = some (s, tail) := by
  induction s with
  | nil =>
    intro fuel tail h
    obtain ⟨f, rfl⟩ : ∃ f, fuel = f + 1 := ⟨fuel - 1, by omega⟩
    simp [escape, unquoteAux]
  | cons c s ih =>
    intro fuel tail h
    obtain ⟨f, rfl⟩ : ∃ f, fuel = f + 1 := ⟨fuel - 1, by omega⟩
    have hlen : s.length < f := by simpa using h
    simp only [escape, List.append_assoc]
    rw [unquoteAux_escapeChar, ih f tail hlen]
    rfl

theorem escapeChar_length (c : Char) : 1 ≤ (escapeChar c).length := by
  unfold escapeChar
  split_ifs <;> simp

theorem escape_length (s : List Char) : s.length ≤ (escape s).length := by
  induction s with
  | nil => simp [escape]
  | cons c s ih =>
    have := escapeChar_length c
    simp only [escape, List.length_append, List.length_cons]
    omega

/-- Scanning an encoded string gives the string back. -/
theorem unquote_escape (s tail : List Char) :
    unquote (escape s ++ '"' :: tail) = some (s, tail) := by
  unfold unquote
  apply unquoteAux_escape
  have := escape_length s
  simp only [List.length_append, List.length_cons]
  omega

theorem isNumberChar_digitChar (d : Nat) (h : d < 10) :
    isNumberChar (strconv.digitChar d) = true := by
  interval_cases d <;> rfl

theorem isDigit_digitChar (d : Nat) (h : d < 10) : isDigit (strconv.digitChar d) = true := by
  interval_cases d <;> rfl

theorem FormatUint_all (P : Char → Prop) (hP : ∀ d, d < 10 → P (strconv.digitChar d))
    (n : Nat) : ∀ c ∈ strconv.FormatUint n, P c :=
  strconv.formatBits_all P hP (n + 1) n [] (by simp)

/-- The text of an integer is a JSON number literal. -/
theorem validNumber_FormatInt (i : Int) : validNumber (strconv.FormatInt i) = true := by
  have hall : ∀ n, ∀ c ∈ strconv.FormatUint n, isDigit c = true :=
    FormatUint_all (fun c => isDigit c = true) isDigit_digitChar
  have hdrop : ∀ l : List Char, (∀ c ∈ l, isDigit c = true) → l.dropWhile isDigit = [] := by
    intro l hl
    simpa using hl
  have hu : ∀ n, validUnsigned (strconv.FormatUint n) = true := by
    intro n
    by_cases hn : n = 0
    · subst hn; rfl
    · obtain ⟨d, rest, he, hd, hz⟩ := strconv.formatBits_head (n + 1) n [] (by omega)
      have he2 : strconv.FormatUint n = strconv.digitChar d :: rest := he
      have hrest : ∀ c ∈ rest, isDigit c = true := by
        intro c hc
        exact hall n c (by rw [he2]; exact List.mem_cons_of_mem _ hc)
      rw [he2]
      have hd0 : d ≠ 0 := hz hn
      have h2 : strconv.digitChar d ≠ '0' := by interval_cases d <;> first | omega | decide
      simp [validUnsigned, h2, isDigit_digitChar d hd, hdrop rest hrest, validFraction,
        validExponent]
  unfold strconv.FormatInt
  split_ifs with hneg
  · simp [validNumber, hu]
  · obtain ⟨d, rest, he, hd, hz⟩ := strconv.formatBits_head (i.toNat + 1) i.toNat [] (by omega)
    have he2 : strconv.FormatUint i.toNat = strconv.digitChar d :: rest := he
    have h1 : strconv.digitChar d ≠ '-' := by interval_cases d <;> decide
    have := hu i.toNat
    rw [he2] at this ⊢
    simp [validNumber, h1, this]

theorem FormatInt_cons (i : Int) :
    ∃ c l, strconv.FormatInt i = c :: l ∧ isNumberChar c = true ∧
      ∀ a ∈ l, isNumberChar a = true := by
  have hall : ∀ n, ∀ c ∈ strconv.FormatUint n, isNumberChar c = true :=
    FormatUint_all (fun c => isNumberChar c = true) isNumberChar_digitChar
  unfold strconv.FormatInt
  split_ifs with hneg
  · exact ⟨'-', _, rfl, rfl, hall _⟩
  · obtain ⟨d, rest, he, hd, _⟩ := strconv.formatBits_head (i.toNat + 1) i.toNat [] (by omega)
    have he2 : strconv.FormatUint i.toNat = strconv.digitChar d :: rest := he
    refine ⟨_, _, he2, isNumberChar_digitChar d hd, ?_⟩
    intro a ha
    exact hall i.toNat a (by rw [he2]; exact List.mem_cons_of_mem _ ha)

theorem isNumberChar_ne (c x : Char) (hc : isNumberChar c = true) (hx : isNumberChar x = false) :
    c ≠ x := by
  intro h; subst h; rw [hc] at hx; exact Bool.noConfusion hx

theorem isNumberChar_not_space (c : Char) (hc : isNumberChar c = true) : isSpace c = false := by
  have h1 := isNumberChar_ne c ' ' hc rfl
  have h2 := isNumberChar_ne c '\t' hc rfl
  have h3 := isNumberChar_ne c '\r' hc rfl
  have h4 := isNumberChar_ne c '\n' hc rfl
  simp [isSpace, h1, h2, h3, h4]

/-- A number literal followed by a character that ends it is read as a number. -/
theorem parseValue_number (f depth : Nat) (c : Char) (l tail : List Char) (x : Char)
    (hc : isNumberChar c = true) (hl : ∀ a ∈ l, isNumberChar a = true)
    (hx : isNumberChar x = false) (hv : validNumber (c :: l) = true) :
    parseValue (f + 1) depth (c :: (l ++ x :: tail)) = some (.number (c :: l), x :: tail) := by
  have hall : ∀ a ∈ c :: l, isNumberChar a = true := by
    intro a ha
    rcases List.mem_cons.mp ha with rfl | ha
    · exact hc
    · exact hl a ha
  have htake : (c :: (l ++ x :: tail)).takeWhile isNumberChar = c :: l := by
    rw [← List.cons_append, List.takeWhile_append_of_pos hall]
    simp [List.takeWhile, hx]
  have hdrop : (c :: (l ++ x :: tail)).dropWhile isNumberChar = x :: tail := by
    rw [← List.cons_append, List.dropWhile_append_of_pos hall]
    simp [List.dropWhile, hx]
  have n1 := isNumberChar_ne c '{' hc rfl
  have n2 := isNumberChar_ne c '[' hc rfl
  have n3 := isNumberChar_ne c '"' hc rfl
  have n4 := isNumberChar_ne c 't' hc rfl
  have n5 := isNumberChar_ne c 'f' hc rfl
  have n6 := isNumberChar_ne c 'n' hc rfl
  unfold parseValue
  simp only [skipSpace, isNumberChar_not_space c hc, Bool.false_eq_true, if_false, n1, n2, n3,
    n4, n5, n6, htake, hdrop, hv, if_true]

/-- The text of an integer followed by a comma is read as a number. -/
theorem parseValue_FormatInt (f depth : Nat) (i : Int) (tail : List Char) :
    parseValue (f + 1) depth (strconv.FormatInt i ++ ',' :: tail) =
      some (.number (strconv.FormatInt i), ',' :: tail) := by
  obtain ⟨c, l, he, hc, hl⟩ := FormatInt_cons i
  have hv := validNumber_FormatInt i
  rw [he] at hv ⊢
  exact parseValue_number f depth c l tail ',' hc hl rfl hv

/-- An encoded string is read as that string. -/
theorem parseValue_quote (f depth : Nat) (s : String) (tail : List Char) :
    parseValue (f + 1) depth (quote s ++ tail) = some (.string s, tail) := by
  unfold parseValue quote
  simp only [List.cons_append, List.append_assoc, List.singleton_append, skipSpace]
  simp [isSpace, unquote_escape]

/-- The JSON value of the object `Marshal` writes for a pair. -/
theorem parseMembers_user (f depth : Nat) (id : Int) (name : String) (tail : List Char) :
    parseMembers (f + 3) depth
        (quote "id" ++ (':' :: (strconv.FormatInt id ++
          (',' :: (quote "username" ++ (':' :: (quote name ++ ('}' :: tail)))))))) =
      some ([("id", .number (strconv.FormatInt id)), ("username", .string name)], tail) := by
  have hq : ∀ (k : String) (rest : List Char),
      quote k ++ rest = '"' :: (escape k.data ++ '"' :: rest) := by
    intro k rest; simp [quote]
  have hspace : ∀ (c : Char) (rest : List Char), isSpace c = false →
      skipSpace (c :: rest) = c :: rest := by
    intro c rest h; simp [skipSpace, h]
  rw [parseMembers, hq "id", hspace '"' _ rfl]
  simp only [unquote_escape, hspace ':' _ rfl, parseValue_FormatInt, hspace ',' _ rfl]
  rw [parseMembers, hq "username", hspace '"' _ rfl]
  simp only [unquote_escape, hspace ':' _ rfl, parseValue_quote, hspace '}' _ rfl]
  rfl

theorem parseValue_userObject (f depth : Nat) (id : Int) (name : String) (tail : List Char)
    (hdepth : depth < maxNestingDepth) :
    parseValue (f + 4) depth (userObject id name ++ tail) =
      some (.object [("id", .number (strconv.FormatInt id)), ("username", .string name)],
        tail) := by
  have htext : userObject id name ++ tail =
      '{' :: (quote "id" ++ (':' :: (strconv.FormatInt id ++
          (',' :: (quote "username" ++ (':' :: (quote name ++ ('}' :: tail)))))))) := by
    simp [userObject]
  have hm := parseMembers_user f (depth + 1) id name tail
  have hd : ¬ maxNestingDepth ≤ depth := by omega
  have hR : ∃ R, quote "id" ++ (':' :: (strconv.FormatInt id ++
          (',' :: (quote "username" ++ (':' :: (quote name ++ ('}' :: tail))))))) = '"' :: R :=
    ⟨_, rfl⟩
  rw [htext, parseValue]
  generalize quote "id" ++ (':' :: (strconv.FormatInt id ++
          (',' :: (quote "username" ++ (':' :: (quote name ++ ('}' :: tail))))))) = X at hm hR
  obtain ⟨R, rfl⟩ := hR
  simp [skipSpace, isSpace, hm, hd]

theorem userObject_length (id : Int) (name : String) : 3 ≤ (userObject id name).length := by
  simp [userObject, quote]
  omega

/-- The syntax pass on the object `Marshal` writes for a pair. -/
theorem parse_userObject (id : Int) (name : String) :
    parse (String.mk (userObject id name)) =
      some (.object [("id", .number (strconv.FormatInt id)), ("username", .string name)]) := by
  have hlen := userObject_length id name
  obtain ⟨f, hf⟩ : ∃ f, (userObject id name).length + 1 = f + 4 :=
    ⟨(userObject id name).length - 3, by omega⟩
  have h := parseValue_userObject f 0 id name [] (by decide)
  rw [List.append_nil] at h
  simp only [parse, hf, h]
  rfl

/-- Decoding the value of a pair into a zero `User`. -/
theorem decodeUser_pair (u : User) :
    decodeUser (.object [("id", .number (strconv.FormatInt u.Id.val)),
      ("username", .string u.Username)]) User.zero = .ok u := by
  have h1 : foldName "id" = foldName "id" := rfl
  have h2 : foldName "username" ≠ foldName "id" := by decide
  simp only [decodeUser, decodeMembers, decodeInt, decodeString, if_true, h2, if_false,
    strconv.ParseInt_FormatInt]

/-- Round trip: `Unmarshal` of what `Marshal` wrote gives the user back. -/
theorem Unmarshal_Marshal (u : User) : Unmarshal (Marshal u) User.zero = .ok u := by
  simp only [Unmarshal, Marshal, parse_userObject, decodeUser_pair]

theorem parseElements_users (us : List User) :
    ∀ (f : Nat) (tail : List Char), us ≠ [] → us.length ≤ f →
      parseElements (f + 4) 1 (marshalElements us ++ ']' :: tail) =
        some (us.map (fun u => Value.object [("id", .number (strconv.FormatInt u.Id.val)),
          ("username", .string u.Username)]), tail) := by
  induction us with
  | nil => intro f tail h; exact absurd rfl h
  | cons u rest ih =>
    intro f tail _ hlen
    obtain ⟨g, rfl⟩ : ∃ g, f = g + 1 := ⟨f - 1, by simp at hlen; omega⟩
    cases rest with
    | nil =>
      rw [parseElements]
      simp only [marshalElements]
      rw [parseValue_userObject g 1 _ _ _ (by decide)]
      simp [skipSpace, isSpace]
    | cons u2 rest2 =>
      rw [parseElements]
      simp only [marshalElements, List.append_assoc, List.cons_append]
      rw [parseValue_userObject g 1 _ _ _ (by decide)]
      have := ih g tail (by simp) (by simpa using hlen)
      simp only [skipSpace, isSpace]
      simp [this]

theorem marshalElements_length (us : List User) :
    3 * us.length ≤ (marshalElements us).length := by
  induction us with
  | nil => simp
  | cons u rest ih =>
    have h := userObject_length u.Id.val u.Username
    cases rest with
    | nil => simpa [marshalElements] using h
    | cons u2 rest2 =>
      simp only [marshalElements, List.length_append, List.length_cons] at ih ⊢
      omega

theorem marshalElements_head (u : User) (rest : List User) :
    ∃ R, marshalElements (u :: rest) = '{' :: R := by
  cases rest with
  | nil => exact ⟨_, rfl⟩
  | cons u2 rest2 => exact ⟨_, rfl⟩

theorem decodeUsers_map (us : List User) :
    decodeUsers (us.map (fun u => Value.object [("id", .number (strconv.FormatInt u.Id.val)),
      ("username", .string u.Username)])) = .ok us := by
  induction us with
  | nil => rfl
  | cons u rest ih => simp only [List.map, decodeUsers, decodeUser_pair, ih]

/-- The syntax pass on the array `Marshal` writes for a slice. -/
theorem parse_MarshalUsers (us : List User) :
    parse (MarshalUsers (some us)) =
      some (.array (us.map (fun u => Value.object
        [("id", .number (strconv.FormatInt u.Id.val)), ("username", .string u.Username)]))) := by
  cases us with
  | nil => rfl
  | cons u rest =>
    have hlen := marshalElements_length (u :: rest)
    obtain ⟨R, hR⟩ := marshalElements_head u rest
    have hfuel : ∃ f, (marshalElements (u :: rest)).length + 2 = f + 4 ∧
        (u :: rest).length ≤ f := by
      simp only [List.length_cons] at hlen ⊢
      generalize (marshalElements (u :: rest)).length = n at hlen
      exact ⟨n - 2, by omega, by omega⟩
    obtain ⟨f, hf, hle⟩ := hfuel
    have h := parseElements_users (u :: rest) f [] (by simp) hle
    have hfuel2 : ('[' :: (marshalElements (u :: rest) ++ [']'])).length + 1 = (f + 4) + 1 := by
      simp only [List.length_cons, List.length_append, List.length_nil]
      omega
    simp only [parse, MarshalUsers]
    rw [hfuel2, parseValue]
    rw [hR] at h ⊢
    simp only [List.cons_append] at h ⊢
    have hd : maxNestingDepth ≠ 0 := by decide
    simp [skipSpace, isSpace, h, hd]

/-- Round trip for slices: `Unmarshal` of what `Marshal` wrote gives the
slice back. -/
theorem UnmarshalUsers_MarshalUsers (us : Option (List User)) :
    UnmarshalUsers (MarshalUsers us) = .ok us := by
  cases us with
  | none => rfl
  | some us => simp only [UnmarshalUsers, parse_MarshalUsers, decodeUsers_map]

/-- Opening brackets past the nesting limit are a syntax error, whatever
follows them. -/
theorem parseValue_too_deep (k : Nat) :
    ∀ (fuel depth : Nat) (rest : List Char), maxNestingDepth < depth + (k + 1) →
      parseValue fuel depth (List.replicate (k + 1) '[' ++ rest) = none := by
  induction k with
  | zero =>
    intro fuel depth rest h
    cases fuel with
    | zero => rfl
    | succ f =>
      have hd : maxNestingDepth ≤ depth := by omega
      simp [parseValue, skipSpace, isSpace, hd, List.replicate]
  | succ k ih =>
    intro fuel depth rest h
    cases fuel with
    | zero => rfl
    | succ f =>
      by_cases hd : maxNestingDepth ≤ depth
      · simp [parseValue, skipSpace, isSpace, hd, List.replicate]
      · have hinner : ∀ g, parseElements g (depth + 1) (List.replicate (k + 1) '[' ++ rest) =
            none := by
          intro g
          cases g with
          | zero => rfl
          | succ g => rw [parseElements, ih g (depth + 1) rest (by omega)]
        have hrep : List.replicate (k + 1 + 1) '[' ++ rest =
            '[' :: ('[' :: (List.replicate k '[' ++ rest)) := by
          simp [List.replicate]
        have hrep2 : List.replicate (k + 1) '[' ++ rest = '[' :: (List.replicate k '[' ++ rest) := by
          simp [List.replicate]
        rw [hrep2] at hinner
        rw [hrep, parseValue]
        simp [skipSpace, isSpace, hd, hinner]

/-- A body nested deeper than the limit inside a member of a well-formed
object is a syntax error. -/
theorem parse_deep_member (n : Nat) (rest : List Char) (h : maxNestingDepth ≤ n) :
    parse (String.mk ("\x7b\"id\":1,\"username\":\"a\",\"x\":".data ++ (List.replicate n '[' ++ rest))) = none := by
  obtain ⟨k, rfl⟩ : ∃ k, n = k + 1 := ⟨n - 1, by
    have : maxNestingDepth = 10000 := rfl
    omega⟩
  have hdeep : ∀ fuel, parseValue fuel 1 (List.replicate (k + 1) '[' ++ rest) = none :=
    fun fuel => parseValue_too_deep k fuel 1 rest (by omega)
  have hhead : "\x7b\"id\":1,\"username\":\"a\",\"x\":".data =
      '{' :: (quote "id" ++ (':' :: (strconv.FormatInt 1 ++ (',' :: (quote "username" ++
        (':' :: (quote "a" ++ (',' :: (quote "x" ++ [':']))))))))) := by
    decide
  have htext : "\x7b\"id\":1,\"username\":\"a\",\"x\":".data ++ (List.replicate (k + 1) '[' ++ rest) =
      '{' :: (quote "id" ++ (':' :: (strconv.FormatInt 1 ++ (',' :: (quote "username" ++
        (':' :: (quote "a" ++ (',' :: (quote "x" ++
          (':' :: (List.replicate (k + 1) '[' ++ rest))))))))))) := by
    rw [hhead]
    simp only [List.cons_append, List.append_assoc, List.singleton_append, List.nil_append]
  have hq : ∀ (key : String) (tail : List Char),
      quote key ++ tail = '"' :: (escape key.data ++ '"' :: tail) := by
    intro key tail; simp [quote]
  have hspace : ∀ (c : Char) (tail : List Char), isSpace c = false →
      skipSpace (c :: tail) = c :: tail := by
    intro c tail hc; simp [skipSpace, hc]
  have hmembers : ∀ f, parseMembers (f + 4) 1
      (quote "id" ++ (':' :: (strconv.FormatInt 1 ++ (',' :: (quote "username" ++
        (':' :: (quote "a" ++ (',' :: (quote "x" ++
          (':' :: (List.replicate (k + 1) '[' ++ rest))))))))))) = none := by
    intro f
    rw [parseMembers, hq "id", hspace '"' _ rfl]
    simp only [unquote_escape, hspace ':' _ rfl, parseValue_FormatInt, hspace ',' _ rfl]
    rw [parseMembers, hq "username", hspace '"' _ rfl]
    simp only [unquote_escape, hspace ':' _ rfl, parseValue_quote, hspace ',' _ rfl]
    rw [parseMembers, hq "x", hspace '"' _ rfl]
    simp only [unquote_escape, hspace ':' _ rfl, hdeep]
    rfl
  have hlen : ∃ f, ("\x7b\"id\":1,\"username\":\"a\",\"x\":".data ++ (List.replicate (k + 1) '[' ++ rest)).length + 1 = f + 5 := by
    refine ⟨("\x7b\"id\":1,\"username\":\"a\",\"x\":".data ++ (List.replicate (k + 1) '[' ++ rest)).length - 4, ?_⟩
    have h27 : "\x7b\"id\":1,\"username\":\"a\",\"x\":".data.length = 27 := rfl
    simp only [List.length_append, List.length_replicate, h27]
    omega
  obtain ⟨f, hf⟩ := hlen
  unfold parse
  simp only [hf]
  rw [htext, parseValue]
  have hR : ∃ R, quote "id" ++ (':' :: (strconv.FormatInt 1 ++ (',' :: (quote "username" ++
        (':' :: (quote "a" ++ (',' :: (quote "x" ++
          (':' :: (List.replicate (k + 1) '[' ++ rest)))))))))) = '"' :: R := ⟨_, rfl⟩
  have hm := hmembers f
  generalize quote "id" ++ (':' :: (strconv.FormatInt 1 ++ (',' :: (quote "username" ++
        (':' :: (quote "a" ++ (',' :: (quote "x" ++
          (':' :: (List.replicate (k + 1) '[' ++ rest)))))))))) = X at hm hR
  obtain ⟨R, rfl⟩ := hR
  have hd : ¬ maxNestingDepth ≤ 0 := by decide
  simp [skipSpace, isSpace, hm, hd]

end json

/-! ## The handlers on a working handle -/

theorem TrimPrefix_users (suffix : String) :
    strings.TrimPrefix ("/users/" ++ suffix) "/users/" = suffix := by
  unfold strings.TrimPrefix
  have h1 : ("/users/" ++ suffix).data = "/users/".data ++ suffix.data := String.data_append _ _
  have h2 : "/users/".data.isPrefixOf ("/users/".data ++ suffix.data) = true := by
    simp
  rw [h1, if_pos h2]
  simp

theorem Atoi_Itoa (i : GoInt) : strconv.Atoi (strconv.Itoa i.val) = .ok i := by
  simp only [strconv.Atoi, strconv.Itoa, strconv.ParseInt_FormatInt]

theorem QueryRow_working_absent (rows : List User) (id : GoInt) (h : ∀ u ∈ rows, u.Id ≠ id) :
    (sql.DB.working rows).QueryRow id = .error .ErrNoRows := by
  have hfind : rows.find? (fun u => decide (u.Id = id)) = none := by
    rw [List.find?_eq_none]
    intro u hu
    simpa using h u hu
  simp [sql.DB.QueryRow, sql.DB.working, hfind]

theorem QueryRow_working_appended (rows : List User) (u : User) (h : ∀ v ∈ rows, v.Id ≠ u.Id) :
    (sql.DB.working (rows ++ [u])).QueryRow u.Id = .ok u := by
  have hfind : rows.find? (fun v => decide (v.Id = u.Id)) = none := by
    rw [List.find?_eq_none]
    intro v hv
    simpa using h v hv
  simp [sql.DB.QueryRow, sql.DB.working, List.find?_append, hfind]

theorem Exec_working_new (rows : List User) (id : GoInt) (name : String)
    (h : ∀ u ∈ rows, u.Id ≠ id) :
    (sql.DB.working rows).Exec id name = .ok (sql.DB.working (rows ++ [⟨id, name⟩])) := by
  have hany : rows.any (fun u => decide (u.Id = id)) = false := by
    rw [List.any_eq_false]
    intro u hu
    simpa using h u hu
  simp [sql.DB.Exec, sql.DB.working, hany]

theorem Exec_working_duplicate (rows : List User) (id : GoInt) (name : String)
    (h : ∃ u ∈ rows, u.Id = id) :
    (sql.DB.working rows).Exec id name = .error .duplicateEntry := by
  have hany : rows.any (fun u => decide (u.Id = id)) = true := by
    rw [List.any_eq_true]
    obtain ⟨u, hu, he⟩ := h
    exact ⟨u, hu, by simpa using he⟩
  simp [sql.DB.Exec, sql.DB.working, hany]

/-- What `createUser` does with a POST whose body decodes, on a working handle. -/
theorem createUser_decoded (rows : List User) (path body : String) (u : User)
    (hbody : json.Unmarshal body User.zero = .ok u) :
    createUser (sql.DB.working rows) ⟨"POST", path, .ok body⟩ =
      match (sql.DB.working rows).Exec u.Id u.Username with
      | .error _ =>
        ⟨.sent ⟨500, [], "Error executing statement"⟩, sql.DB.working rows,
          [.Prepare "INSERT INTO user (id, username) VALUES (?, ?)", .Exec u.Id u.Username,
            .Close], []⟩
      | .ok db1 =>
        ⟨.sent ⟨200, [], "User created successfully"⟩, db1,
          [.Prepare "INSERT INTO user (id, username) VALUES (?, ?)", .Exec u.Id u.Username,
            .Close], []⟩ := by
  have hm : ¬ ("POST" ≠ http.MethodPost) := by decide
  have hp : (sql.DB.working rows).Prepare = .ok () := rfl
  simp only [createUser, hm, if_false, hbody, hp]
  cases (sql.DB.working rows).Exec u.Id u.Username <;> rfl

/-! ## Routing -/

namespace http

theorem appendSorted_perm (es : List (String × Handler)) (e : String × Handler) :
    (appendSorted es e).Perm (e :: es) := by
  induction es with
  | nil => exact List.Perm.refl _
  | cons x xs ih =>
    unfold appendSorted
    split_ifs
    · exact List.Perm.refl _
    · exact (List.Perm.cons x ih).trans (List.Perm.swap e x xs)

theorem register_spec (regs : List (String × Handler)) :
    ∀ mux : ServeMux, (regs.map Prod.fst).Nodup → (∀ e ∈ regs, e.1 ≠ "") →
      (∀ e ∈ mux.m, ∀ e2 ∈ regs, e.1 ≠ e2.1) →
      ∃ mux2, mux.register regs = some mux2 ∧ mux2.m = mux.m ++ regs ∧
        mux2.es.Perm (mux.es ++ regs.filter (fun e => e.1.data.getLast? = some '/')) := by
  induction regs with
  | nil =>
    intro mux _ _ _
    exact ⟨mux, rfl, by simp, by simp⟩
  | cons r rest ih =>
    intro mux hnodup hne hfresh
    obtain ⟨p, h⟩ := r
    have hp : p ≠ "" := hne (p, h) (List.mem_cons_self _ _)
    have hany : mux.m.any (fun e => decide (e.1 = p)) = false := by
      rw [List.any_eq_false]
      intro e he
      simpa using hfresh e he (p, h) (List.mem_cons_self _ _)
    have hnd : p ∉ rest.map Prod.fst ∧ (rest.map Prod.fst).Nodup := by
      simpa using hnodup
    have hstep : mux.HandleFunc p h = some
        { m := mux.m ++ [(p, h)]
          es := if p.data.getLast? = some '/' then appendSorted mux.es (p, h) else mux.es } := by
      simp [ServeMux.HandleFunc, hp, hany]
    obtain ⟨mux2, hreg, hm, hes⟩ := ih
      { m := mux.m ++ [(p, h)]
        es := if p.data.getLast? = some '/' then appendSorted mux.es (p, h) else mux.es }
      hnd.2 (fun e he => hne e (List.mem_cons_of_mem _ he))
      (by
        intro e he e2 he2
        rcases List.mem_append.mp he with he | he
        · exact hfresh e he e2 (List.mem_cons_of_mem _ he2)
        · have : e = (p, h) := by simpa using he
          subst this
          intro heq
          exact hnd.1 (List.mem_map.mpr ⟨e2, he2, heq.symm⟩))
    refine ⟨mux2, ?_, ?_, ?_⟩
    · simp only [ServeMux.register, hstep, hreg]
    · simp [hm]
    · by_cases hs : p.data.getLast? = some '/'
      · simp only [hs, if_true] at hes
        have h1 : (appendSorted mux.es (p, h) ++
            rest.filter (fun e => e.1.data.getLast? = some '/')).Perm
            (mux.es ++ (p, h) :: rest.filter (fun e => e.1.data.getLast? = some '/')) := by
          refine ((appendSorted_perm mux.es (p, h)).append_right _).trans ?_
          simpa using (List.perm_middle).symm
        refine hes.trans (h1.trans ?_)
        simp [List.filter, hs]
      · simp only [hs, if_false] at hes
        refine hes.trans ?_
        simp [List.filter, hs]

end http

/-- The mux built from the registrations of `apiSetup` in any order, and
the handler its pattern lookup finds for each path. -/
theorem register_routes (regs : List (String × Handler)) (hperm : regs.Perm routes) :
    ∃ mux, http.NewServeMux.register regs = some mux ∧ mux.m = regs ∧
      ∀ path : String, mux.handler path = expectedRoute path := by
  have hnodup : (regs.map Prod.fst).Nodup :=
    (hperm.map Prod.fst).nodup_iff.mpr (by decide)
  have hroutes : ∀ e ∈ routes, e.1 ≠ "" := by decide
  have hne : ∀ e ∈ regs, e.1 ≠ "" := fun e he => hroutes e (hperm.mem_iff.mp he)
  obtain ⟨mux, hreg, hm, hes⟩ :=
    http.register_spec regs http.NewServeMux hnodup hne (by simp [http.NewServeMux])
  have hm2 : mux.m = regs := by simpa [http.NewServeMux] using hm
  have hes2 : mux.es = [("/users/", Handler.getUserHandler)] := by
    have h1 : (regs.filter (fun e => e.1.data.getLast? = some '/')).Perm
        (routes.filter (fun e => e.1.data.getLast? = some '/')) := hperm.filter _
    have h2 : routes.filter (fun e => e.1.data.getLast? = some '/') =
        [("/users/", Handler.getUserHandler)] := by decide
    rw [h2] at h1
    have h3 : mux.es.Perm [("/users/", Handler.getUserHandler)] := by
      refine hes.trans ?_
      simpa [http.NewServeMux] using h1
    exact List.perm_singleton.mp h3
  refine ⟨mux, hreg, hm2, ?_⟩
  intro path
  unfold http.ServeMux.handler expectedRoute
  rw [hm2, hes2]
  cases hfind : regs.find? (fun e => decide (e.1 = path)) with
  | some e =>
    have hmem : e ∈ routes := hperm.mem_iff.mp (List.mem_of_find?_eq_some hfind)
    have hkey : e.1 = path := by simpa using List.find?_some hfind
    subst hkey
    simp only [routes, List.mem_cons, List.mem_singleton, List.not_mem_nil, or_false] at hmem
    rcases hmem with h | h | h | h <;> subst h <;> decide
  | none =>
    have hnone : ∀ e ∈ routes, e.1 ≠ path := by
      intro e he
      have := List.find?_eq_none.mp hfind e (hperm.mem_iff.mpr he)
      simpa using this
    have h1 : path ≠ "/users" := fun h => hnone ("/users", .getUsersHandler) (by decide) h.symm
    have h2 : path ≠ "/users/create" :=
      fun h => hnone ("/users/create", .createUser) (by decide) h.symm
    have h3 : path ≠ "/health" := fun h => hnone ("/health", .healthHandler) (by decide) h.symm
    simp only [h1, h2, h3, if_false, List.find?]
    cases hp : "/users/".data.isPrefixOf path.data <;> simp

/-- A text that ends in a character and equals a path followed by a slash. -/
theorem append_slash_eq (path : String) (l : List Char) (c : Char)
    (h : String.mk (l ++ [c]) = path ++ "/") : c = '/' ∧ path = String.mk l := by
  have hd : l ++ [c] = path.data ++ ['/'] := by
    have := congrArg String.data h
    simpa [String.data_append] using this
  have hlen : ([c] : List Char).length = (['/'] : List Char).length := rfl
  obtain ⟨h1, h2⟩ := List.append_inj' hd hlen
  refine ⟨by simpa using h2, ?_⟩
  cases path with
  | mk d => simp only at h1; rw [h1]

/-- No path is redirected to a pattern with a slash after it: the only such
pattern is `/users/`, and `/users` is registered itself. -/
theorem shouldRedirect_routes (mux : http.ServeMux) (hm : mux.m.Perm routes) (path : String) :
    mux.shouldRedirect path = false := by
  unfold http.ServeMux.shouldRedirect
  by_cases h1 : mux.m.any (fun e => decide (e.1 = path)) = true
  · simp [h1]
  · by_cases h2 : path = ""
    · simp [h2]
    · simp only [h1, h2, if_false]
      have hnot : mux.m.any (fun e => decide (e.1 = path ++ "/")) = false := by
        rw [List.any_eq_false]
        intro e he hkey
        have hkey2 : e.1 = path ++ "/" := by simpa using hkey
        have hmem : e ∈ routes := hm.mem_iff.mp he
        simp only [routes, List.mem_cons, List.mem_singleton, List.not_mem_nil, or_false] at hmem
        rcases hmem with h | h | h | h <;> subst h
        · have := append_slash_eq path "/user".data 's' hkey2
          exact absurd this.1 (by decide)
        · have := append_slash_eq path "/users".data '/' hkey2
          apply h1
          rw [List.any_eq_true]
          refine ⟨("/users", Handler.getUsersHandler), hm.mem_iff.mpr (by decide), ?_⟩
          simp [this.2]
        · have := append_slash_eq path "/users/creat".data 'e' hkey2
          exact absurd this.1 (by decide)
        · have := append_slash_eq path "/healt".data 'h' hkey2
          exact absurd this.1 (by decide)
      simp [hnot]

/-- What the mux of `apiSetup`, built in any order, decides for a request:
the route of the path when the path is canonical or the method is CONNECT, a
redirect to the canonical path otherwise. -/
theorem Handler_routes (regs : List (String × Handler)) (hperm : regs.Perm routes) :
    ∃ mux, http.NewServeMux.register regs = some mux ∧
      (∀ path : String, mux.handler path = expectedRoute path) ∧
      (∀ r : http.Request, r.Method = "CONNECT" ∨ http.cleanPath r.Path = r.Path →
        mux.Handler r =
          match expectedRoute r.Path with
          | some h => .handler h
          | none => .notFound) ∧
      (∀ r : http.Request, r.Method ≠ "CONNECT" → http.cleanPath r.Path ≠ r.Path →
        mux.Handler r = .redirect (http.cleanPath r.Path)) := by
  obtain ⟨mux, hreg, hm, hlookup⟩ := register_routes regs hperm
  have hsr : ∀ path, mux.shouldRedirect path = false :=
    fun path => shouldRedirect_routes mux (by rw [hm]; exact hperm) path
  refine ⟨mux, hreg, hlookup, ?_, ?_⟩
  · intro r hcanonical
    unfold http.ServeMux.Handler http.ServeMux.lookup
    by_cases hc : r.Method = "CONNECT"
    · simp only [hc, if_true, hsr, Bool.false_eq_true, if_false, hlookup]
    · have hclean : http.cleanPath r.Path = r.Path := by
        rcases hcanonical with h | h
        · exact absurd h hc
        · exact h
      simp only [hc, if_false, hsr, Bool.false_eq_true, hclean, ne_eq, not_true_eq_false,
        hlookup]
  · intro r hc hclean
    unfold http.ServeMux.Handler
    simp only [hc, if_false, hsr, Bool.false_eq_true, ne_eq, hclean, not_false_eq_true, if_true]

theorem getUsersHandler_method (db : sql.DB) (r : http.Request) (h : r.Method ≠ "GET") :
    getUsersHandler db r = ⟨.sent ⟨405, [], ""⟩, db, [], []⟩ := by
  have h2 : r.Method ≠ http.MethodGet := h
  unfold getUsersHandler
  rw [if_pos h2]
  rfl

theorem getUserHandler_method (db : sql.DB) (r : http.Request) (h : r.Method ≠ "GET") :
    getUserHandler db r = ⟨.sent ⟨405, [], ""⟩, db, [], []⟩ := by
  have h2 : r.Method ≠ http.MethodGet := h
  unfold getUserHandler
  rw [if_pos h2]
  rfl

theorem createUser_method (db : sql.DB) (r : http.Request) (h : r.Method ≠ "POST") :
    createUser db r = ⟨.sent ⟨405, [], ""⟩, db, [], []⟩ := by
  have h2 : r.Method ≠ http.MethodPost := h
  unfold createUser
  rw [if_pos h2]
  rfl

/-! ## Listing and creating -/

theorem scanRows_working (rows : List User) (table : List User) :
    ∀ users : List User,
      scanRows (sql.DB.working table) rows users = .ok (users ++ rows) := by
  induction rows with
  | nil => intro users; simp [scanRows]
  | cons row rest ih =>
    intro users
    have hs : (sql.DB.working table).Scan row = .ok row := rfl
    simp only [scanRows, hs, ih]
    simp

theorem getUsersHandler_working (rows : List User) (body : Except String String) :
    getUsersHandler (sql.DB.working rows) ⟨"GET", "/users", body⟩ =
      ⟨.sent ⟨200, [("Content-Type", "application/json")], json.MarshalUsers (some rows)⟩,
        sql.DB.working rows, [.Query "SELECT * FROM user"], [json.MarshalUsers (some rows)]⟩ := by
  have hm : ¬ ("GET" ≠ http.MethodGet) := by decide
  have hq : (sql.DB.working rows).Query = .ok rows := rfl
  unfold getUsersHandler
  rw [if_neg hm]
  simp only [hq, scanRows_working, List.nil_append]
  rfl

theorem serveEach_createUser (us : List User) :
    ∀ rows : List User, (us.map (fun u => u.Id)).Nodup →
      (∀ u ∈ us, ∀ r ∈ rows, r.Id ≠ u.Id) →
      serveEach createUser (sql.DB.working rows)
          (us.map (fun u => ⟨"POST", "/users/create", .ok (json.Marshal u)⟩)) =
        (us.map (fun _ => Reply.sent ⟨200, [], "User created successfully"⟩),
          sql.DB.working (rows ++ us)) := by
  induction us with
  | nil => intro rows _ _; simp [serveEach]
  | cons u rest ih =>
    intro rows hnodup hfresh
    have hnd : u.Id ∉ rest.map (fun u => u.Id) ∧ (rest.map (fun u => u.Id)).Nodup := by
      simpa using hnodup
    have hnew : ∀ r ∈ rows, r.Id ≠ u.Id := hfresh u (List.mem_cons_self _ _)
    have hstep := createUser_decoded rows "/users/create" (json.Marshal u) u
      (json.Unmarshal_Marshal u)
    rw [Exec_working_new rows u.Id u.Username hnew] at hstep
    have hih := ih (rows ++ [u]) hnd.2 (by
      intro v hv r hr
      rcases List.mem_append.mp hr with hr | hr
      · exact hfresh v (List.mem_cons_of_mem _ hv) r hr
      · have : r = u := by simpa using hr
        subst this
        intro heq
        exact hnd.1 (List.mem_map.mpr ⟨v, hv, heq.symm⟩))
    simp only [List.map, serveEach, hstep, hih]
    simp

/-! ## Identifiers that do not parse, and the 404 reply -/

theorem parseUintLoop_not_digits (l : List Char) :
    ∀ n : Nat, l.all (fun d => (strconv.digitVal d).isSome) = false →
      ∀ v, strconv.parseUintLoop l n ≠ .ok v := by
  induction l with
  | nil => intro n h; simp at h
  | cons c rest ih =>
    intro n h v
    unfold strconv.parseUintLoop
    cases hd : strconv.digitVal c with
    | none => simp
    | some d =>
      have hrest : rest.all (fun d => (strconv.digitVal d).isSome) = false := by
        simpa [hd] using h
      simp only
      split_ifs
      · simp
      · exact ih _ hrest v

theorem Atoi_not_integerText (s : String) (h : integerText s = false) :
    ∀ id, strconv.Atoi s ≠ .ok id := by
  intro id
  unfold strconv.Atoi strconv.ParseInt
  unfold integerText at h
  cases hs : s.data with
  | nil => simp
  | cons c rest =>
    rw [hs] at h
    simp only at h ⊢
    generalize (if c = '+' ∨ c = '-' then rest else c :: rest) = digits at h ⊢
    cases digits with
    | nil => simp [strconv.ParseUint]
    | cons d ds =>
      have hall : (d :: ds).all (fun d => (strconv.digitVal d).isSome) = false := by
        simpa using h
      have := parseUintLoop_not_digits (d :: ds) 0 hall
      simp only [strconv.ParseUint]
      cases hp : strconv.parseUintLoop (d :: ds) 0 with
      | error e => simp
      | ok v => exact absurd hp (this v)

theorem getUserHandler_status (db : sql.DB) (r : http.Request) :
    ∀ resp, (getUserHandler db r).reply = .sent resp → resp.status = 404 →
      r.Method = "GET" ∧
      ∃ id, strconv.Atoi (strings.TrimPrefix r.Path "/users/") = .ok id ∧
        db.QueryRow id = .error .ErrNoRows := by
  intro resp hreply hstatus
  unfold getUserHandler at hreply
  by_cases hm : r.Method = http.MethodGet
  · refine ⟨hm, ?_⟩
    have hm2 : ¬ (r.Method ≠ http.MethodGet) := not_not.mpr hm
    simp only [hm2, if_false] at hreply
    cases ha : strconv.Atoi (strings.TrimPrefix r.Path "/users/") with
    | error e =>
      rw [ha] at hreply
      simp only [respond] at hreply
      injection hreply with h
      subst h
      exact absurd (show (400 : Nat) = 404 from hstatus) (by decide)
    | ok id =>
      refine ⟨id, rfl, ?_⟩
      rw [ha] at hreply
      simp only at hreply
      cases hq : db.QueryRow id with
      | error e =>
        by_cases he : e = sql.Error.ErrNoRows
        · rw [he]
        · rw [hq] at hreply
          simp only [he, if_false] at hreply
          exact Reply.noConfusion hreply
      | ok user =>
        rw [hq] at hreply
        simp only [respond] at hreply
        injection hreply with h
        subst h
        exact absurd (show (200 : Nat) = 404 from hstatus) (by decide)
  · have hm2 : r.Method ≠ http.MethodGet := hm
    rw [if_pos hm2] at hreply
    simp only [respond] at hreply
    injection hreply with h
    subst h
    exact absurd (show (405 : Nat) = 404 from hstatus) (by decide)

/-! ## Bodies that do not decode -/

theorem decodeInt_error_iff (v : json.Value) (cur : GoInt) :
    (∃ err, json.decodeInt v cur = .error err) ↔ (!v.isNull && !v.isInt) = true := by
  cases v with
  | number lit =>
    cases h : strconv.ParseInt lit <;> simp [json.decodeInt, json.Value.isNull, json.Value.isInt, h]
  | _ => simp [json.decodeInt, json.Value.isNull, json.Value.isInt]

theorem decodeString_error_iff (v : json.Value) (cur : String) :
    (∃ err, json.decodeString v cur = .error err) ↔ (!v.isNull && !v.isString) = true := by
  cases v <;> simp [json.decodeString, json.Value.isNull, json.Value.isString]

theorem decodeMembers_error_iff (ms : List (String × json.Value)) :
    ∀ u : User, (∃ err, json.decodeMembers ms u = .error err) ↔
      ∃ kv ∈ ms, json.badMember kv = true := by
  induction ms with
  | nil => intro u; simp [json.decodeMembers]
  | cons kv rest ih =>
    intro u
    obtain ⟨k, v⟩ := kv
    simp only [json.decodeMembers, List.exists_mem_cons_iff]
    by_cases hid : json.foldName k = json.foldName "id"
    · have hbad : json.badMember (k, v) = (!v.isNull && !v.isInt) := by
        unfold json.badMember
        rw [if_pos hid]
      rw [hbad, ← decodeInt_error_iff v u.Id, if_pos hid]
      cases hd : json.decodeInt v u.Id with
      | error e => simp
      | ok i => simp [ih]
    · by_cases hname : json.foldName k = json.foldName "username"
      · have hbad : json.badMember (k, v) = (!v.isNull && !v.isString) := by
          unfold json.badMember
          rw [if_neg hid, if_pos hname]
        rw [hbad, ← decodeString_error_iff v u.Username, if_neg hid, if_pos hname]
        cases hd : json.decodeString v u.Username with
        | error e => simp
        | ok i => simp [ih]
      · have hbad : json.badMember (k, v) = false := by
          unfold json.badMember
          rw [if_neg hid, if_neg hname]
        rw [hbad, if_neg hid, if_neg hname, ih]
        simp

/-! # The claims -/

/-- C1, as stated, fails: the id 9223372036854775808 has no row in the empty
store, the body is the JSON object with that id and the username `alice`, and
the POST ends in `log.Fatal` (the number does not fit Go's `int`) instead of
the reply 200. -/
theorem C1_counterexample :
    (∀ u ∈ (sql.DB.working []).rows, u.Id.val ≠ 9223372036854775808) ∧
    json.parse "\x7b\"id\":9223372036854775808,\"username\":\"alice\"\x7d" =
      some (.object [("id", .number (strconv.FormatInt 9223372036854775808)),
        ("username", .string "alice")]) ∧
    createUser (sql.DB.working [])
        ⟨"POST", "/users/create",
          .ok "\x7b\"id\":9223372036854775808,\"username\":\"alice\"\x7d"⟩ =
      ⟨.fatal (.json .UnmarshalTypeError), sql.DB.working [], [], []⟩ := by
  refine ⟨by simp [sql.DB.working], by rfl, by decide⟩

/-- C1, amended: for every store state, every id in the range of Go's `int`
that has no row in the store and every username, a POST to `/users/create`
whose body is JSON text for the object with that id and that username is
answered 200 `User created successfully` and adds the row; a GET of
`/users/<decimal id>` on the resulting store is then answered 200 with
`Content-Type: application/json` and a body that `Unmarshal` decodes to the
same pair. -/
theorem C1_create_then_get (rows : List User) (id : GoInt) (username body : String)
    (getBody : Except String String)
    (hnew : ∀ u ∈ rows, u.Id ≠ id)
    (hbody : json.parse body =
      some (.object [("id", .number (strconv.FormatInt id.val)), ("username", .string username)])) :
    createUser (sql.DB.working rows) ⟨"POST", "/users/create", .ok body⟩ =
      ⟨.sent ⟨200, [], "User created successfully"⟩,
        sql.DB.working (rows ++ [⟨id, username⟩]),
        [.Prepare "INSERT INTO user (id, username) VALUES (?, ?)", .Exec id username, .Close],
        []⟩ ∧
    getUserHandler (sql.DB.working (rows ++ [⟨id, username⟩]))
        ⟨"GET", "/users/" ++ strconv.Itoa id.val, getBody⟩ =
      ⟨.sent ⟨200, [("Content-Type", "application/json")], json.Marshal ⟨id, username⟩⟩,
        sql.DB.working (rows ++ [⟨id, username⟩]),
        [.QueryRow "SELECT * FROM user WHERE id = ?" id], []⟩ ∧
    json.Unmarshal (json.Marshal ⟨id, username⟩) User.zero = .ok ⟨id, username⟩ := by
  have hdec : json.Unmarshal body User.zero = .ok ⟨id, username⟩ := by
    simp only [json.Unmarshal, hbody]
    exact json.decodeUser_pair ⟨id, username⟩
  refine ⟨?_, ?_, json.Unmarshal_Marshal _⟩
  · rw [createUser_decoded rows _ body _ hdec, Exec_working_new rows id username hnew]
  · have hm : ¬ ("GET" ≠ http.MethodGet) := by decide
    have hq := QueryRow_working_appended rows ⟨id, username⟩ hnew
    simp only [getUserHandler, hm, if_false, TrimPrefix_users, Atoi_Itoa]
    simp only [hq]
    rfl

/-- C1 at the scenario of the specification: the body
`{"id": 1, "username": "alice"}` on the empty store, then `GET /users/1`. -/
theorem C1_create_then_get_witness :
    (∀ u ∈ ([] : List User), u.Id ≠ ⟨1, by decide⟩) ∧
    json.parse "\x7b\"id\": 1, \"username\": \"alice\"\x7d" =
      some (.object [("id", .number (strconv.FormatInt 1)), ("username", .string "alice")]) ∧
    strconv.Itoa 1 = "1" ∧
    json.Marshal ⟨⟨1, by decide⟩, "alice"⟩ = "\x7b\"id\":1,\"username\":\"alice\"\x7d" ∧
    (createUser (sql.DB.working []) ⟨"POST", "/users/create",
        .ok "\x7b\"id\": 1, \"username\": \"alice\"\x7d"⟩ =
      ⟨.sent ⟨200, [], "User created successfully"⟩,
        sql.DB.working ([] ++ [⟨⟨1, by decide⟩, "alice"⟩]),
        [.Prepare "INSERT INTO user (id, username) VALUES (?, ?)",
          .Exec ⟨1, by decide⟩ "alice", .Close],
        []⟩ ∧
    getUserHandler (sql.DB.working ([] ++ [⟨⟨1, by decide⟩, "alice"⟩]))
        ⟨"GET", "/users/" ++ strconv.Itoa 1, .ok ""⟩ =
      ⟨.sent ⟨200, [("Content-Type", "application/json")],
          json.Marshal ⟨⟨1, by decide⟩, "alice"⟩⟩,
        sql.DB.working ([] ++ [⟨⟨1, by decide⟩, "alice"⟩]),
        [.QueryRow "SELECT * FROM user WHERE id = ?" ⟨1, by decide⟩], []⟩ ∧
    json.Unmarshal (json.Marshal ⟨⟨1, by decide⟩, "alice"⟩) User.zero =
      .ok ⟨⟨1, by decide⟩, "alice"⟩) :=
  ⟨by simp, by rfl, by decide, by decide,
    C1_create_then_get [] ⟨1, by decide⟩ "alice" "\x7b\"id\": 1, \"username\": \"alice\"\x7d"
      (.ok "") (by simp) (by rfl)⟩

/-- C2: for every handle, every request body and every suffix that is not
an integer text (or that `Atoi` rejects for any other reason), `getUserHandler`
answers a GET of `/users/<suffix>` with status 400 and body `Invalid user ID`,
sends no statement to the store and leaves the handle as it was. -/
theorem C2_get_invalid_id (db : sql.DB) (suffix : String) (body : Except String String)
    (hbad : integerText suffix = false ∨ ∀ id, strconv.Atoi suffix ≠ .ok id) :
    getUserHandler db ⟨"GET", "/users/" ++ suffix, body⟩ =
      ⟨.sent ⟨400, [], "Invalid user ID"⟩, db, [], []⟩ := by
  have hm : ¬ ("GET" ≠ http.MethodGet) := by decide
  have hfail : ∀ id, strconv.Atoi suffix ≠ .ok id := by
    rcases hbad with h | h
    · exact Atoi_not_integerText suffix h
    · exact h
  simp only [getUserHandler, hm, if_false, TrimPrefix_users]
  cases ha : strconv.Atoi suffix with
  | error e => rfl
  | ok id => exact absurd ha (hfail id)

/-- C2 at the suffix `1/` (a trailing slash), on a store that holds user 1. -/
theorem C2_get_invalid_id_witness :
    (integerText "1/" = false ∨ ∀ id, strconv.Atoi "1/" ≠ .ok id) ∧
    getUserHandler (sql.DB.working [⟨⟨1, by decide⟩, "alice"⟩])
        ⟨"GET", "/users/" ++ "1/", .ok ""⟩ =
      ⟨.sent ⟨400, [], "Invalid user ID"⟩, sql.DB.working [⟨⟨1, by decide⟩, "alice"⟩], [], []⟩ :=
  ⟨Or.inl (by decide),
    C2_get_invalid_id (sql.DB.working [⟨⟨1, by decide⟩, "alice"⟩]) "1/" (.ok "")
      (Or.inl (by decide))⟩

/-- The suffixes the specification names are not integer texts: the empty
suffix, letters, a decimal point, a trailing slash, a leading blank, a
hexadecimal prefix. -/
theorem integerText_examples :
    integerText "" = false ∧ integerText "abc" = false ∧ integerText "1.5" = false ∧
    integerText "1/" = false ∧ integerText " 1" = false ∧ integerText "0x10" = false ∧
    integerText "-" = false := by
  decide

/-- C3, as stated, fails: the id 9223372036854775808 has no row in the empty
store, its decimal text is the path suffix, and the GET is answered 400
`Invalid user ID` (`Atoi` reports a range error), not 404. -/
theorem C3_counterexample :
    (∀ u ∈ (sql.DB.working []).rows, u.Id.val ≠ 9223372036854775808) ∧
    strconv.Itoa 9223372036854775808 = "9223372036854775808" ∧
    getUserHandler (sql.DB.working []) ⟨"GET", "/users/9223372036854775808", .ok ""⟩ =
      ⟨.sent ⟨400, [], "Invalid user ID"⟩, sql.DB.working [], [], []⟩ := by
  refine ⟨by simp [sql.DB.working], by decide, by decide⟩

/-- C3, amended: for every store state and every id in the range of Go's
`int` with no row in the store, a GET of `/users/<decimal id>` is answered 404
`User not found`, the process goes on and the store is unchanged. A reply 404
of `getUserHandler` occurs only when the row read reports `ErrNoRows`; every
other error of the row read ends in `log.Fatal`. -/
theorem C3_get_absent (rows : List User) (id : GoInt) (body : Except String String)
    (habsent : ∀ u ∈ rows, u.Id ≠ id) :
    getUserHandler (sql.DB.working rows) ⟨"GET", "/users/" ++ strconv.Itoa id.val, body⟩ =
      ⟨.sent ⟨404, [], "User not found"⟩, sql.DB.working rows,
        [.QueryRow "SELECT * FROM user WHERE id = ?" id], []⟩ ∧
    (∀ (db : sql.DB) (r : http.Request) (resp : http.Response),
      (getUserHandler db r).reply = .sent resp → resp.status = 404 →
        r.Method = "GET" ∧
        ∃ key, strconv.Atoi (strings.TrimPrefix r.Path "/users/") = .ok key ∧
          db.QueryRow key = .error .ErrNoRows) ∧
    (∀ (db : sql.DB) (r : http.Request) (key : GoInt) (err : sql.Error),
      r.Method = "GET" → strconv.Atoi (strings.TrimPrefix r.Path "/users/") = .ok key →
        db.QueryRow key = .error err → err ≠ .ErrNoRows →
          getUserHandler db r =
            ⟨.fatal (.sql err), db, [.QueryRow "SELECT * FROM user WHERE id = ?" key],
              []⟩) := by
  refine ⟨?_, fun db r resp => getUserHandler_status db r resp, ?_⟩
  · have hm : ¬ ("GET" ≠ http.MethodGet) := by decide
    have hq := QueryRow_working_absent rows id habsent
    simp only [getUserHandler, hm, if_false, TrimPrefix_users, Atoi_Itoa]
    simp only [hq]
    rfl
  · intro db r key err hm ha hq hne
    have hm2 : ¬ (r.Method ≠ http.MethodGet) := not_not.mpr hm
    simp only [getUserHandler, hm2, if_false, ha]
    simp only [hq, hne, if_false]

/-- C3 at the scenario of the specification: `GET /users/999` on a store
that holds only user 1. -/
theorem C3_get_absent_witness :
    (∀ u ∈ [(⟨⟨1, by decide⟩, "alice"⟩ : User)], u.Id ≠ ⟨999, by decide⟩) ∧
    strconv.Itoa 999 = "999" ∧
    getUserHandler (sql.DB.working [⟨⟨1, by decide⟩, "alice"⟩])
        ⟨"GET", "/users/" ++ strconv.Itoa 999, .ok ""⟩ =
      ⟨.sent ⟨404, [], "User not found"⟩, sql.DB.working [⟨⟨1, by decide⟩, "alice"⟩],
        [.QueryRow "SELECT * FROM user WHERE id = ?" ⟨999, by decide⟩], []⟩ :=
  ⟨by decide, by decide,
    (C3_get_absent [⟨⟨1, by decide⟩, "alice"⟩] ⟨999, by decide⟩ (.ok "") (by decide)).1⟩

/-- The row read of a handle whose driver fails is an error other than
`ErrNoRows`, and `getUserHandler` ends in `log.Fatal` on it. -/
theorem getUserHandler_driver_failure :
    getUserHandler ⟨[], [.QueryRow]⟩ ⟨"GET", "/users/1", .ok ""⟩ =
      ⟨.fatal (.sql (.driver .QueryRow)), ⟨[], [.QueryRow]⟩,
        [.QueryRow "SELECT * FROM user WHERE id = ?" ⟨1, by decide⟩], []⟩ := by
  decide

/-- C4: every request the mux of `apiSetup` hands to a registered handler
(its path is canonical, or its method is CONNECT, which the mux does not put
in canonical form) with a disallowed method is answered 405 with an empty
body: a method other than GET on `/users` or on any other path that begins
with `/users/` except `/users/create`, a method other than POST on
`/users/create`. No statement is sent and the handle is unchanged, whatever the
rest of the path and the body (readable or not) are. -/
theorem C4_method_not_allowed (db : sql.DB) (r : http.Request)
    (hcanonical : r.Method = "CONNECT" ∨ http.cleanPath r.Path = r.Path)
    (hdisallowed :
      ((r.Path = "/users" ∨
          ("/users/".data.isPrefixOf r.Path.data = true ∧ r.Path ≠ "/users/create")) ∧
        r.Method ≠ "GET") ∨
      (r.Path = "/users/create" ∧ r.Method ≠ "POST")) :
    ∃ mux, apiMux = some mux ∧
      serveHTTP mux db r = ⟨.sent ⟨405, [], ""⟩, db, [], []⟩ := by
  obtain ⟨mux, hreg, _, hdispatch, _⟩ := Handler_routes routes (List.Perm.refl _)
  refine ⟨mux, hreg, ?_⟩
  have hstar : r.Path ≠ "*" := by
    intro hs
    have h1 : ("*" : String) ≠ "/users" := by decide
    have h2 : "/users/".data.isPrefixOf ("*" : String).data ≠ true := by decide
    have h3 : ("*" : String) ≠ "/users/create" := by decide
    rw [hs] at hdisallowed
    rcases hdisallowed with ⟨hpath | ⟨hpre, _⟩, _⟩ | ⟨hpath, _⟩
    · exact h1 hpath
    · exact h2 hpre
    · exact h3 hpath
  unfold serveHTTP
  rw [if_neg hstar, hdispatch r hcanonical]
  unfold expectedRoute
  rcases hdisallowed with ⟨hpath, hmethod⟩ | ⟨hpath, hmethod⟩
  · rcases hpath with hpath | ⟨hpre, hne⟩
    · simp only [hpath, if_true]
      exact getUsersHandler_method db r hmethod
    · by_cases hu : r.Path = "/users"
      · simp only [hu, if_true]
        exact getUsersHandler_method db r hmethod
      · simp only [hu, hne, hpre, if_true, if_false]
        exact getUserHandler_method db r hmethod
  · have h1 : r.Path ≠ "/users" := by rw [hpath]; decide
    simp only [h1, hpath, if_true, if_false]
    exact createUser_method db r hmethod

/-- C4 at `GET /users/create` with a body that cannot be read. -/
theorem C4_method_not_allowed_witness :
    (("GET" : String) = "CONNECT" ∨ http.cleanPath "/users/create" = "/users/create") ∧
    (((("/users/create" : String) = "/users" ∨
          ("/users/".data.isPrefixOf ("/users/create" : String).data = true ∧
            ("/users/create" : String) ≠ "/users/create")) ∧
        ("GET" : String) ≠ "GET") ∨
      (("/users/create" : String) = "/users/create" ∧ ("GET" : String) ≠ "POST")) ∧
    ∃ mux, apiMux = some mux ∧
      serveHTTP mux (sql.DB.working []) ⟨"GET", "/users/create", .error "unexpected EOF"⟩ =
        ⟨.sent ⟨405, [], ""⟩, sql.DB.working [], [], []⟩ :=
  ⟨by decide, by decide,
    C4_method_not_allowed (sql.DB.working []) ⟨"GET", "/users/create", .error "unexpected EOF"⟩
      (by decide) (by decide)⟩

/-- A request with a disallowed method whose path is not canonical reaches
no handler: the mux answers `POST /users//7` with a redirect to `/users/7`. -/
theorem serveHTTP_redirect_example :
    serveHTTP ⟨routes, [("/users/", Handler.getUserHandler)]⟩ (sql.DB.working [])
        ⟨"POST", "/users//7", .ok ""⟩ =
      ⟨.redirect "/users/7", sql.DB.working [], [], []⟩ := by
  decide

/-- C5: starting from the empty store, creating users with pairwise distinct
ids through the create handler succeeds for each of them (200) and leaves
exactly their rows; on every store that holds those rows, in whatever order it
returns them, `GET /users` is answered 200 with `Content-Type:
application/json` and a JSON array that decodes to a list holding exactly those
users, each once; with no user the body is `[]`, where the nil slice would be
written `null`. -/
theorem C5_list_after_creates (us : List User) (body : Except String String)
    (hdistinct : (us.map (fun u => u.Id)).Nodup) :
    serveEach createUser (sql.DB.working [])
        (us.map (fun u => ⟨"POST", "/users/create", .ok (json.Marshal u)⟩)) =
      (us.map (fun _ => Reply.sent ⟨200, [], "User created successfully"⟩),
        sql.DB.working us) ∧
    (∀ rows : List User, rows.Perm us →
      ∃ listed : List User,
        getUsersHandler (sql.DB.working rows) ⟨"GET", "/users", body⟩ =
          ⟨.sent ⟨200, [("Content-Type", "application/json")], json.MarshalUsers (some rows)⟩,
            sql.DB.working rows, [.Query "SELECT * FROM user"],
            [json.MarshalUsers (some rows)]⟩ ∧
        json.UnmarshalUsers (json.MarshalUsers (some rows)) = .ok (some listed) ∧
        listed.Perm us) ∧
    (us = [] →
      getUsersHandler (sql.DB.working us) ⟨"GET", "/users", body⟩ =
        ⟨.sent ⟨200, [("Content-Type", "application/json")], "[]"⟩,
          sql.DB.working [], [.Query "SELECT * FROM user"], ["[]"]⟩ ∧
      json.MarshalUsers none = "null") := by
  refine ⟨?_, ?_, ?_⟩
  · have := serveEach_createUser us [] hdistinct (by simp)
    simpa using this
  · intro rows hperm
    exact ⟨rows, getUsersHandler_working rows body,
      json.UnmarshalUsers_MarshalUsers (some rows), hperm⟩
  · intro h
    subst h
    exact ⟨getUsersHandler_working [] body, rfl⟩

/-- C5 at two users, created in the order 2, 1. -/
theorem C5_list_after_creates_witness :
    ([(⟨⟨2, by decide⟩, "bob"⟩ : User), ⟨⟨1, by decide⟩, "alice"⟩].map (fun u => u.Id)).Nodup ∧
    serveEach createUser (sql.DB.working [])
        ([(⟨⟨2, by decide⟩, "bob"⟩ : User), ⟨⟨1, by decide⟩, "alice"⟩].map
          (fun u => ⟨"POST", "/users/create", .ok (json.Marshal u)⟩)) =
      ([(⟨⟨2, by decide⟩, "bob"⟩ : User), ⟨⟨1, by decide⟩, "alice"⟩].map
          (fun _ => Reply.sent ⟨200, [], "User created successfully"⟩),
        sql.DB.working [⟨⟨2, by decide⟩, "bob"⟩, ⟨⟨1, by decide⟩, "alice"⟩]) ∧
    json.Marshal ⟨⟨2, by decide⟩, "bob"⟩ = "\x7b\"id\":2,\"username\":\"bob\"\x7d" ∧
    (getUsersHandler (sql.DB.working [⟨⟨2, by decide⟩, "bob"⟩, ⟨⟨1, by decide⟩, "alice"⟩])
        ⟨"GET", "/users", .ok ""⟩).reply =
      .sent ⟨200, [("Content-Type", "application/json")],
        "[\x7b\"id\":2,\"username\":\"bob\"\x7d,\x7b\"id\":1,\"username\":\"alice\"\x7d]"⟩ :=
  ⟨by decide,
    (C5_list_after_creates [⟨⟨2, by decide⟩, "bob"⟩, ⟨⟨1, by decide⟩, "alice"⟩] (.ok "")
      (by decide)).1,
    by decide, by decide⟩

/-- C6: for every store state that holds a row with id `i`, every username
and every body that decodes to a user with that id, a POST to the create
handler is answered 500 `Error executing statement`; the process goes on and
the store is exactly as it was. -/
theorem C6_duplicate_id (rows : List User) (i : GoInt) (username path body : String)
    (hrow : ∃ u ∈ rows, u.Id = i)
    (hbody : json.Unmarshal body User.zero = .ok ⟨i, username⟩) :
    createUser (sql.DB.working rows) ⟨"POST", path, .ok body⟩ =
      ⟨.sent ⟨500, [], "Error executing statement"⟩, sql.DB.working rows,
        [.Prepare "INSERT INTO user (id, username) VALUES (?, ?)", .Exec i username, .Close],
        []⟩ := by
  rw [createUser_decoded rows path body ⟨i, username⟩ hbody,
    Exec_working_duplicate rows i username hrow]

/-- C6 at a second POST for id 1 with another username: `alice` stays. -/
theorem C6_duplicate_id_witness :
    (∃ u ∈ [(⟨⟨1, by decide⟩, "alice"⟩ : User)], u.Id = ⟨1, by decide⟩) ∧
    json.Unmarshal "\x7b\"id\":1,\"username\":\"bob\"\x7d" User.zero =
      .ok ⟨⟨1, by decide⟩, "bob"⟩ ∧
    createUser (sql.DB.working [⟨⟨1, by decide⟩, "alice"⟩])
        ⟨"POST", "/users/create", .ok "\x7b\"id\":1,\"username\":\"bob\"\x7d"⟩ =
      ⟨.sent ⟨500, [], "Error executing statement"⟩,
        sql.DB.working [⟨⟨1, by decide⟩, "alice"⟩],
        [.Prepare "INSERT INTO user (id, username) VALUES (?, ?)",
          .Exec ⟨1, by decide⟩ "bob", .Close], []⟩ :=
  ⟨by decide, by rfl,
    C6_duplicate_id [⟨⟨1, by decide⟩, "alice"⟩] ⟨1, by decide⟩ "bob" "/users/create"
      "\x7b\"id\":1,\"username\":\"bob\"\x7d" (by decide) (by rfl)⟩

/-- C7, as stated, fails: the path `/users//1` begins with `/users/` and is
not `/users/create`, yet the mux of `apiSetup` does not hand `GET /users//1` to
the get-by-id handler: it answers with a redirect to `/users/1`. Likewise
`GET /users/../health` is redirected to `/health`. -/
theorem C7_counterexample :
    "/users/".data.isPrefixOf "/users//1".data = true ∧
    ("/users//1" : String) ≠ "/users/create" ∧
    apiMux = some ⟨routes, [("/users/", Handler.getUserHandler)]⟩ ∧
    (⟨routes, [("/users/", Handler.getUserHandler)]⟩ : http.ServeMux).Handler
        ⟨"GET", "/users//1", .ok ""⟩ = .redirect "/users/1" ∧
    serveHTTP ⟨routes, [("/users/", Handler.getUserHandler)]⟩
        (sql.DB.working [⟨⟨1, by decide⟩, "alice"⟩]) ⟨"GET", "/users//1", .ok ""⟩ =
      ⟨.redirect "/users/1", sql.DB.working [⟨⟨1, by decide⟩, "alice"⟩], [], []⟩ ∧
    (⟨routes, [("/users/", Handler.getUserHandler)]⟩ : http.ServeMux).Handler
        ⟨"GET", "/users/../health", .ok ""⟩ = .redirect "/health" := by
  refine ⟨by decide, by decide, by decide, by decide, by decide, by decide⟩

/-- C7, amended: for the four registrations of `apiSetup` made in any
order, the mux is built without a panic; its pattern lookup sends `/users` to
the list handler, `/users/create` to the create handler and never to the
get-by-id handler, every other path that begins with `/users/` to the
get-by-id handler, `/health` to the health handler, and finds no handler for
any other path; the mux hands a request to the handler so found when the path
of the request is canonical or its method is CONNECT, and answers a request
of any other method whose path is not canonical with a redirect to the
canonical path, calling no registered handler. -/
theorem C7_routing (regs : List (String × Handler)) (hperm : regs.Perm routes) :
    ∃ mux, http.NewServeMux.register regs = some mux ∧
      (∀ path : String,
        mux.handler path =
          if path = "/users" then some Handler.getUsersHandler
          else if path = "/users/create" then some Handler.createUser
          else if "/users/".data.isPrefixOf path.data then some Handler.getUserHandler
          else if path = "/health" then some Handler.healthHandler
          else none) ∧
      (∀ r : http.Request, r.Method = "CONNECT" ∨ http.cleanPath r.Path = r.Path →
        mux.Handler r =
          match expectedRoute r.Path with
          | some h => .handler h
          | none => .notFound) ∧
      (∀ r : http.Request, r.Method ≠ "CONNECT" → http.cleanPath r.Path ≠ r.Path →
        mux.Handler r = .redirect (http.cleanPath r.Path)) :=
  Handler_routes regs hperm

/-- C7 at the registrations in the reverse of the order of the source. -/
theorem C7_routing_witness :
    [("/health", Handler.healthHandler), ("/users/create", Handler.createUser),
        ("/users/", Handler.getUserHandler), ("/users", Handler.getUsersHandler)].Perm routes ∧
    ∃ mux, http.NewServeMux.register
        [("/health", Handler.healthHandler), ("/users/create", Handler.createUser),
          ("/users/", Handler.getUserHandler), ("/users", Handler.getUsersHandler)] = some mux ∧
      (∀ path : String,
        mux.handler path =
          if path = "/users" then some Handler.getUsersHandler
          else if path = "/users/create" then some Handler.createUser
          else if "/users/".data.isPrefixOf path.data then some Handler.getUserHandler
          else if path = "/health" then some Handler.healthHandler
          else none) ∧
      (∀ r : http.Request, r.Method = "CONNECT" ∨ http.cleanPath r.Path = r.Path →
        mux.Handler r =
          match expectedRoute r.Path with
          | some h => .handler h
          | none => .notFound) ∧
      (∀ r : http.Request, r.Method ≠ "CONNECT" → http.cleanPath r.Path ≠ r.Path →
        mux.Handler r = .redirect (http.cleanPath r.Path)) :=
  ⟨by decide, C7_routing _ (by decide)⟩

/-- C8: for every method, every body (readable or not), every path and
every handle, the health handler answers 200 `Health check passed`, sends no
statement and leaves the handle as it was; so does the mux of `apiSetup` for
the path `/health`. -/
theorem C8_health (db : sql.DB) (r : http.Request) :
    healthHandler db r = ⟨.sent ⟨200, [], "Health check passed"⟩, db, [], []⟩ ∧
    ∃ mux, apiMux = some mux ∧
      serveHTTP mux db ⟨r.Method, "/health", r.Body⟩ =
        ⟨.sent ⟨200, [], "Health check passed"⟩, db, [], []⟩ := by
  obtain ⟨mux, hreg, _, hdispatch, _⟩ := Handler_routes routes (List.Perm.refl _)
  refine ⟨rfl, mux, hreg, ?_⟩
  have hstar : ("/health" : String) ≠ "*" := by decide
  have hclean : http.cleanPath "/health" = "/health" := by decide
  have hroute : expectedRoute "/health" = some Handler.healthHandler := by decide
  unfold serveHTTP
  rw [if_neg hstar, hdispatch ⟨r.Method, "/health", r.Body⟩ (Or.inr hclean)]
  simp only [hroute]
  rfl

/-- C9, as stated, fails: the file `.env` loads, `DSN` is not set, and `main`
goes on to connection setup with the empty descriptor. Where `sql.Open`,
`Ping` and the listener succeed the server serves; where `Ping` fails the
process ends in `log.Fatal` at the ping, after `sql.Open("mysql", "")`. -/
theorem C9_counterexample :
    Getenv (godotenvLoad [] []) "DSN" = "" ∧
    main ⟨.ok [], [], fun _ => none, fun _ => none, none, none⟩ =
      (.serving "" ⟨routes, [("/users/", Handler.getUserHandler)]⟩,
        [.loadDotenv, .getenv "DSN" "", .sqlOpen "", .ping "", .listenAndServe]) ∧
    main ⟨.ok [], [], fun _ => none, fun _ => some "dial tcp 127.0.0.1:3306: connection refused",
        none, none⟩ =
      (.fatal "dial tcp 127.0.0.1:3306: connection refused",
        [.loadDotenv, .getenv "DSN" "", .sqlOpen "", .ping ""]) := by
  refine ⟨by decide, by decide, by decide⟩

/-- C9, amended: `main` ends in `log.Fatal` at the configuration step
exactly when the file `.env` fails to load. When the file loads, `main` calls
`apiSetup` with the value of `DSN`, the empty string when the variable is
unset or empty: `sql.Open` is then called with the empty descriptor, and the
server serves whenever `sql.Open`, `Ping` and the listener do not fail. -/
theorem C9_main (world : World) :
    (∀ err, world.dotenv = .error err →
      main world = (.fatal "Error loading .env file", [.loadDotenv])) ∧
    (∀ file, world.dotenv = .ok file →
      main world =
        ((apiSetup world (Getenv (godotenvLoad world.environ file) "DSN") false).1,
          [.loadDotenv, .getenv "DSN" (Getenv (godotenvLoad world.environ file) "DSN")] ++
            (apiSetup world (Getenv (godotenvLoad world.environ file) "DSN") false).2)) ∧
    (∀ file, world.dotenv = .ok file →
      Getenv (godotenvLoad world.environ file) "DSN" = "" →
        Step.sqlOpen "" ∈ (main world).2 ∧
        (world.sqlOpen "" = none → world.ping "" = none → world.listen = none →
          ∃ mux, (main world).1 = .serving "" mux)) := by
  refine ⟨?_, ?_, ?_⟩
  · intro err h
    simp only [main, h]
  · intro file h
    simp only [main, h]
  · intro file h hdsn
    have hm : main world = ((apiSetup world "" false).1,
        [Step.loadDotenv, Step.getenv "DSN" ""] ++ (apiSetup world "" false).2) := by
      simp only [main, h, hdsn]
    have hmux : apiMux = some ⟨routes, [("/users/", Handler.getUserHandler)]⟩ := by decide
    rw [hm]
    constructor
    · simp only [apiSetup]
      cases world.sqlOpen "" <;> cases world.ping "" <;> cases world.listen <;>
        simp [hmux]
    · intro h1 h2 h3
      simp [apiSetup, h1, h2, h3, hmux]

/-- C10: for every handle and every POST to the create handler whose body
is read, a body that `Unmarshal` does not decode into a `User` ends in
`log.Fatal` and in no response, with no statement prepared or executed and
the handle unchanged; conversely a body that decodes is answered with a
response. The bodies that do not decode are exactly: text the scanner rejects
(text that is not JSON, or JSON nested deeper than 10000), a JSON value that is
neither an object nor `null`, and an object with a member named like `id` whose
value is neither `null` nor an integer literal in the range of `int`, or with
a member named like `username` whose value is neither `null` nor a string. -/
theorem C10_decode_failure (db : sql.DB) (path body : String) :
    (∀ err, json.Unmarshal body User.zero = .error err →
      createUser db ⟨"POST", path, .ok body⟩ = ⟨.fatal (.json err), db, [], []⟩) ∧
    (∀ u, json.Unmarshal body User.zero = .ok u →
      ∃ resp, (createUser db ⟨"POST", path, .ok body⟩).reply = .sent resp) ∧
    ((∃ err, json.Unmarshal body User.zero = .error err) ↔
      (json.parse body = none ∨
        (∃ v, json.parse body = some v ∧ v.isNull = false ∧ v.isObject = false) ∨
        ∃ members, json.parse body = some (.object members) ∧
          ∃ kv ∈ members, json.badMember kv = true)) := by
  have hm : ¬ ("POST" ≠ http.MethodPost) := by decide
  refine ⟨?_, ?_, ?_⟩
  · intro err h
    unfold createUser
    rw [if_neg hm]
    simp only [h]
  · intro u h
    unfold createUser
    rw [if_neg hm]
    simp only [h]
    cases db.Prepare with
    | error e => exact ⟨_, rfl⟩
    | ok _ =>
      cases db.Exec u.Id u.Username with
      | error e => exact ⟨_, rfl⟩
      | ok db1 => exact ⟨_, rfl⟩
  · unfold json.Unmarshal
    cases hp : json.parse body with
    | none => simp
    | some v =>
      cases v with
      | object members =>
        simp [json.decodeUser, decodeMembers_error_iff, json.Value.isObject]
      | null => simp [json.decodeUser, json.Value.isNull]
      | _ => simp [json.decodeUser, json.Value.isNull, json.Value.isObject]

/-- A member whose value is `null` decodes: `Unmarshal` leaves the field at
its zero value, and the POST is answered 200 with the row of id 0 added. -/
theorem createUser_null_id :
    json.parse "\x7b\"id\":null,\"username\":\"bob\"\x7d" =
      some (.object [("id", .null), ("username", .string "bob")]) ∧
    createUser (sql.DB.working [])
        ⟨"POST", "/users/create", .ok "\x7b\"id\":null,\"username\":\"bob\"\x7d"⟩ =
      ⟨.sent ⟨200, [], "User created successfully"⟩,
        sql.DB.working [⟨⟨0, by decide⟩, "bob"⟩],
        [.Prepare "INSERT INTO user (id, username) VALUES (?, ?)",
          .Exec ⟨0, by decide⟩ "bob", .Close], []⟩ := by
  refine ⟨by rfl, by decide⟩

/-- A body with a member nested deeper than the scanner accepts ends in
`log.Fatal`, on every handle, also on a store that holds the id it carries. -/
theorem createUser_deep_body (db : sql.DB) (n : Nat) (rest : List Char)
    (h : json.maxNestingDepth ≤ n) :
    createUser db ⟨"POST", "/users/create",
        .ok (String.mk ("\x7b\"id\":1,\"username\":\"a\",\"x\":".data ++
          (List.replicate n '[' ++ rest)))⟩ =
      ⟨.fatal (.json .SyntaxError), db, [], []⟩ := by
  have hm : ¬ ("POST" ≠ http.MethodPost) := by decide
  unfold createUser
  rw [if_neg hm]
  simp only [json.Unmarshal, json.parse_deep_member n rest h]

/-- Nesting within the limit decodes: the extra member is skipped. -/
theorem createUser_nested_body :
    createUser (sql.DB.working [])
        ⟨"POST", "/users/create", .ok "\x7b\"id\":1,\"username\":\"a\",\"x\":[[[]]]\x7d"⟩ =
      ⟨.sent ⟨200, [], "User created successfully"⟩,
        sql.DB.working [⟨⟨1, by decide⟩, "a"⟩],
        [.Prepare "INSERT INTO user (id, username) VALUES (?, ?)",
          .Exec ⟨1, by decide⟩ "a", .Close], []⟩ := by
  decide

/-- Bodies that end in `log.Fatal` at the decode step: text that is not
JSON, an id written as a string, an id with a fraction, a username written as
a number. -/
theorem createUser_fatal_examples :
    (createUser (sql.DB.working []) ⟨"POST", "/users/create", .ok "\x7b\"id\":1"⟩).reply =
      .fatal (.json .SyntaxError) ∧
    (createUser (sql.DB.working [])
        ⟨"POST", "/users/create", .ok "\x7b\"id\":\"1\",\"username\":\"bob\"\x7d"⟩).reply =
      .fatal (.json .UnmarshalTypeError) ∧
    (createUser (sql.DB.working [])
        ⟨"POST", "/users/create", .ok "\x7b\"id\":1.5,\"username\":\"bob\"\x7d"⟩).reply =
      .fatal (.json .UnmarshalTypeError) ∧
    (createUser (sql.DB.working [])
        ⟨"POST", "/users/create", .ok "\x7b\"id\":1,\"username\":7\x7d"⟩).reply =
      .fatal (.json .UnmarshalTypeError) := by
  decide

end Goblog
